import Mathlib

/-!
# Audit: report writers and bundle extraction

A shallow embedding of

* `pkg/reports/packages/report.go`  (`Report.writeXls`, `Report.writeJSON`),
* `pkg/reports/channels/report.go`  (`Report.writeXls`, `Report.writeJSON`),
* `pkg/actions/get_bundle.go`       (`GetDataFromBundleImage` and its helpers).

The spreadsheet library, the JSON codec, the clock, the file system and the
external processes are not part of the repository: their calls are recorded in
the order the code issues them, and their answers are supplied by an
environment.
-/

namespace Audit

/-! ## Spreadsheet calls -/

/-- Cell reference in A1 notation, kept as the column letters and the row
number that `fmt.Sprintf("A%d", line)` puts together. -/
structure Cell where
  col : String
  row : Nat
deriving DecidableEq, Repr

/-- The style registered by `f.NewStyle(&excelize.Style{Font: &excelize.Font{Color: c}})`. -/
structure Style where
  FontColor : String
deriving DecidableEq, Repr

/-- Value handed to `SetCellValue`: a string or a slice of strings. -/
inductive CellValue where
  | str (s : String)
  | strs (l : List String)
deriving DecidableEq, Repr

/-- Arguments of a call `pkg.GetReportName(image, typeName, typeFile)`. -/
structure ReportName where
  image : String
  typeName : String
  typeFile : String
deriving DecidableEq, Repr

/-- One call on the `excelize.File` (sheet name is always `Sheet1`).
`setCellStyle c s` is `SetCellStyle(sheet, c, c, s)`: the source passes the same
reference as both corners. `saveAs dir n` is
`SaveAs(filepath.Join(dir, pkg.GetReportName(n.image, n.typeName, n.typeFile)))`. -/
inductive Op where
  | setCellValue (c : Cell) (v : CellValue)
  | setCellStyle (c : Cell) (s : Style)
  | addComment (c : Cell) (text : String)
  | setColVisible (col : String) (visible : Bool)
  | addTable (hcell vcell : Cell) (format : String)
  | saveAs (dir : String) (n : ReportName)
deriving DecidableEq, Repr

/-- Number of rows of a sheet, `excelize.TotalRows`: the library rejects a
cell reference whose row is 0 or lies beyond it. -/
def TotalRows : Nat := 1048576

/-- Whether the library accepts the row of a cell reference. -/
def Cell.valid (c : Cell) : Bool :=
  decide (1 ≤ c.row) && decide (c.row ≤ TotalRows)

/-- Contents of the workbook that the calls build up: values and styles of the
cells, hidden columns, tables and the files saved. Comments are not kept:
whether `AddComment` accepts its text is decided by the parser of the library. -/
structure File where
  value : Cell → Option CellValue
  style : Cell → Option Style
  hidden : String → Bool
  tables : List (Cell × Cell × String)
  saved : List (String × ReportName)

/-- The workbook of `excelize.NewFile()`: no cell set, no column hidden. -/
def NewFile : File :=
  { value := fun _ => none
    style := fun _ => none
    hidden := fun _ => false
    tables := []
    saved := [] }

/-- Effect of one call on the workbook. A call on a cell whose row the library
rejects returns an error, which the code only logs, and leaves the workbook as
it was. -/
def File.apply (f : File) : Op → File
  | .setCellValue c v =>
      if c.valid then { f with value := fun d => if d = c then some v else f.value d } else f
  | .setCellStyle c s =>
      if c.valid then { f with style := fun d => if d = c then some s else f.style d } else f
  | .addComment _ _ => f
  | .setColVisible col visible =>
      { f with hidden := fun d => if d = col then !visible else f.hidden d }
  | .addTable h v fmt => { f with tables := f.tables ++ [(h, v, fmt)] }
  | .saveAs dir n => { f with saved := f.saved ++ [(dir, n)] }

/-- Effect of a sequence of calls, first call first. -/
def File.run (f : File) (ops : List Op) : File :=
  ops.foldl File.apply f

/-- Row of the cell a call writes to, when it writes to a cell. -/
def Op.row? : Op → Option Nat
  | .setCellValue c _ => some c.row
  | .setCellStyle c _ => some c.row
  | .addComment c _ => some c.row
  | _ => none

/-- The cell a call writes to, when it writes to a cell. -/
def Op.cell? : Op → Option Cell
  | .setCellValue c _ => some c
  | .setCellStyle c _ => some c
  | .addComment c _ => some c
  | _ => none

/-- The calls of a sequence that write to the cell `c`, in the order issued. -/
def cellCalls (ops : List Op) (c : Cell) : List Op :=
  ops.filter (fun op => decide (op.cell? = some c))

/-- The file a call saves the workbook to, when it is a `SaveAs`. -/
def Op.saved? : Op → Option (String × ReportName)
  | .saveAs dir n => some (dir, n)
  | _ => none

/-- Helpers of package `pkg` that the report writers call; their bodies are not
among the sources, so they are parameters. -/
structure PkgHelpers where
  GetYesOrNo : Bool → String
  GetFormatArrayWithBreakLine : List String → String
  TableFormat : String

/-- The `%s` rendering of a `[]string` by `fmt`: `[a b c]`. -/
def fmtStrings (l : List String) : String :=
  "[" ++ " ".intercalate l ++ "]"

/-- The part of `pkg.DockerInspectManifest.DockerConfig` the code reads. -/
structure DockerConfig where
  Labels : List (String × String)
deriving DecidableEq, Repr

/-- The part of `pkg.DockerInspectManifest` the code reads. -/
structure DockerInspectManifest where
  ID : String
  Created : String
  DockerConfig : DockerConfig
deriving DecidableEq, Repr

/-- Go map lookup `m[key]` on a `map[string]string`: the zero value when absent. -/
def mapLookup (m : List (String × String)) (key : String) : String :=
  match m.find? (fun kv => kv.1 = key) with
  | some kv => kv.2
  | none => ""

/-- The calls `f.SetCellValue(sheetName, fmt.Sprintf("%s5", k), v)` of the loop
`for k, v := range columns`, for the order in which the map is ranged. -/
def labelOps (order : List (String × String)) : List Op :=
  order.map (fun kv => Op.setCellValue ⟨kv.1, 5⟩ (.str kv.2))

/-- A call `SetCellStyle` guarded by a condition. -/
def styleIf (b : Bool) (c : Cell) (s : Style) : List Op :=
  if b then [.setCellStyle c s] else []

/-- The two-way `if c { SetCellStyle(.., s) } else { SetCellStyle(.., t) }`. -/
def styleIfElse (b : Bool) (c : Cell) (s t : Style) : List Op :=
  if b then [.setCellStyle c s] else [.setCellStyle c t]

/-- The loop `for k, v := range cols { line := k + 6; ... }` from index `k` on,
where `body line v` lists the calls of one pass. -/
def rowsFrom {α : Type} (body : Nat → α → List Op) : Nat → List α → List Op
  | _, [] => []
  | k, v :: vs => body (k + 6) v ++ rowsFrom body (k + 1) vs

/-! ## Packages report -/

namespace Packages

/-- The fields of `BindFlags` that the writers read. -/
structure BindFlags where
  IndexImage : String
  OutputPath : String
  DisableScorecard : Bool
  DisableValidators : Bool
deriving DecidableEq, Repr

/-- The fields of the packages `Column` that `writeXls` reads. The slices are
the fields the source measures with `len` and prints with `%s`. -/
structure Column where
  PackageName : String
  KindsDeprecateAPIs : List String
  HasWebhooks : Bool
  MultipleArchitectures : List String
  HasScorecardSuggestions : Bool
  HasScorecardFailingTests : Bool
  ScorecardFailingTests : List String
  HasValidatorErrors : Bool
  HasValidatorWarnings : Bool
  HasInvalidVersioning : Bool
  HasInvalidSkipRange : Bool
  IsMultiChannel : Bool
  HasSupportForAllNamespaces : Bool
  HasSupportForSingleNamespace : Bool
  HasSupportForOwnNamespaces : Bool
  HasSupportForMultiNamespaces : Bool
  HasInfraAnnotation : Bool
  HasPossiblePerformIssues : Bool
  HasCustomScorecardTests : Bool
  AuditErrors : List String
deriving DecidableEq, Repr

structure Report where
  Columns : List Column
  Flags : BindFlags
  IndexImageInspect : DockerInspectManifest
  GenerateAt : String
deriving DecidableEq, Repr

def styleOrange : Style := ⟨"#ec8f1c"⟩

def styleRed : Style := ⟨"#EC1C1C"⟩

def styleGreen : Style := ⟨"#3FA91E"⟩

/-- The map literal `columns` of `writeXls`. -/
def columns : List (String × String) :=
  [("A", "Package Name"),
   ("B", "Kinds \n (Suggestion API(s) usage)"),
   ("C", "Is using Webhooks"),
   ("D", "Multiple Architectures used"),
   ("E", "Has Scorecard Suggestions"),
   ("F", "Has Scorecard Falling Tests"),
   ("G", "Has Validator Errors"),
   ("H", "Has Validator Warnings"),
   ("I", "Has Invalid Versioning"),
   ("J", "Has Invalid SkipRange"),
   ("K", "Is multi-channel"),
   ("L", "Has Support for All Namespaces"),
   ("M", "Has Support for Single Namespaces"),
   ("N", "Has Support for Own Namespaces"),
   ("O", "Has Support for Multi Namespaces"),
   ("P", "Has Infrastructure Support"),
   ("Q", "Has possible performance issues"),
   ("R", "Has custom Scorecards"),
   ("S", "Issues (To process this report)")]

/-- The header block, rows 1 to 4; `dt` is `time.Now().Format("2006-01-02")`. -/
def headerOps (dt : String) (r : Report) : List Op :=
  [.setCellValue ⟨"A", 1⟩ (.str ("Audit Packages Report (Generated at " ++ dt ++
      "). IMPORTANT: This report only checks the head " ++
      "operators of the channels. Use the bundles report to check all bundles")),
   .setCellValue ⟨"A", 2⟩ (.str "Image used"),
   .setCellValue ⟨"B", 2⟩ (.str r.Flags.IndexImage),
   .setCellValue ⟨"A", 3⟩ (.str "Image Index Create Date:"),
   .setCellValue ⟨"B", 3⟩ (.str r.IndexImageInspect.Created),
   .setCellValue ⟨"A", 4⟩ (.str "Image Index ID:"),
   .setCellValue ⟨"B", 4⟩ (.str r.IndexImageInspect.ID)]

/-- The calls for the failing-tests cell `F`: value, then comment and red when
`len(v.ScorecardFailingTests) > 0`, green otherwise. -/
def failingTestsOps (h : PkgHelpers) (line : Nat) (v : Column) : List Op :=
  [.setCellValue ⟨"F", line⟩ (.str (h.GetYesOrNo v.HasScorecardFailingTests))] ++
  (if v.ScorecardFailingTests.length > 0 then
    [.addComment ⟨"F", line⟩
        ("\x7b\"author\":\"Audit: \",\"text\":\"" ++ fmtStrings v.ScorecardFailingTests ++ "\"\x7d"),
     .setCellStyle ⟨"F", line⟩ styleRed]
   else
    [.setCellStyle ⟨"F", line⟩ styleGreen])

/-- Body of the loop `for k, v := range r.Columns` for one element, with
`line := k + 6` already computed. -/
def rowOps (h : PkgHelpers) (line : Nat) (v : Column) : List Op :=
  [.setCellValue ⟨"A", line⟩ (.str v.PackageName),
   .setCellValue ⟨"B", line⟩ (.strs v.KindsDeprecateAPIs)] ++
  styleIf (v.KindsDeprecateAPIs.length > 0) ⟨"B", line⟩ styleOrange ++
  [.setCellValue ⟨"C", line⟩ (.str (h.GetYesOrNo v.HasWebhooks)),
   .setCellValue ⟨"D", line⟩ (.str (h.GetFormatArrayWithBreakLine v.MultipleArchitectures)),
   .setCellValue ⟨"E", line⟩ (.str (h.GetYesOrNo v.HasScorecardSuggestions))] ++
  styleIf v.HasScorecardSuggestions ⟨"E", line⟩ styleOrange ++
  failingTestsOps h line v ++
  [.setCellValue ⟨"G", line⟩ (.str (h.GetYesOrNo v.HasValidatorErrors))] ++
  styleIfElse v.HasValidatorErrors ⟨"G", line⟩ styleRed styleGreen ++
  [.setCellValue ⟨"H", line⟩ (.str (h.GetYesOrNo v.HasValidatorWarnings))] ++
  styleIfElse v.HasValidatorWarnings ⟨"H", line⟩ styleOrange styleGreen ++
  [.setCellValue ⟨"I", line⟩ (.str (h.GetYesOrNo v.HasInvalidVersioning))] ++
  styleIfElse v.HasInvalidVersioning ⟨"I", line⟩ styleOrange styleGreen ++
  [.setCellValue ⟨"J", line⟩ (.str (h.GetYesOrNo v.HasInvalidSkipRange))] ++
  styleIf v.HasInvalidSkipRange ⟨"J", line⟩ styleOrange ++
  [.setCellValue ⟨"K", line⟩ (.str (h.GetYesOrNo v.IsMultiChannel)),
   .setCellValue ⟨"L", line⟩ (.str (h.GetYesOrNo v.HasSupportForAllNamespaces)),
   .setCellValue ⟨"M", line⟩ (.str (h.GetYesOrNo v.HasSupportForSingleNamespace)),
   .setCellValue ⟨"N", line⟩ (.str (h.GetYesOrNo v.HasSupportForOwnNamespaces)),
   .setCellValue ⟨"O", line⟩ (.str (h.GetYesOrNo v.HasSupportForMultiNamespaces)),
   .setCellValue ⟨"P", line⟩ (.str (h.GetYesOrNo v.HasInfraAnnotation)),
   .setCellValue ⟨"Q", line⟩ (.str (h.GetYesOrNo v.HasPossiblePerformIssues))] ++
  styleIf v.HasPossiblePerformIssues ⟨"Q", line⟩ styleOrange ++
  [.setCellValue ⟨"R", line⟩ (.str (h.GetYesOrNo v.HasCustomScorecardTests))] ++
  styleIf v.HasCustomScorecardTests ⟨"R", line⟩ styleGreen ++
  [.setCellValue ⟨"S", line⟩ (.strs v.AuditErrors)]

/-- The loop `for k, v := range r.Columns`, from index `k` on. -/
def dataOps (h : PkgHelpers) (k : Nat) (cols : List Column) : List Op :=
  rowsFrom (rowOps h) k cols

/-- The two `SetColVisible` blocks after the loop. -/
def visibilityOps (r : Report) : List Op :=
  (if r.Flags.DisableScorecard then
    [.setColVisible "E" false, .setColVisible "F" false] else []) ++
  (if r.Flags.DisableValidators then
    [.setColVisible "G" false, .setColVisible "H" false] else [])

/-- All calls of `writeXls` on the workbook, in the order issued. `dt` is the
formatted current date and `order` the order in which the runtime ranges over
the map `columns`. -/
def writeXlsOps (h : PkgHelpers) (dt : String) (order : List (String × String))
    (r : Report) : List Op :=
  headerOps dt r ++ labelOps order ++ dataOps h 0 r.Columns ++ visibilityOps r ++
  [.addTable ⟨"A", 5⟩ ⟨"S", 5⟩ h.TableFormat,
   .saveAs r.Flags.OutputPath ⟨r.Flags.IndexImage, "packages", "xlsx"⟩]

/-- The workbook `writeXls` builds and saves. -/
def writeXls (h : PkgHelpers) (dt : String) (order : List (String × String))
    (r : Report) : File :=
  NewFile.run (writeXlsOps h dt order r)

/-- Arguments of the call `pkg.WriteJSON(data, imageName, outputPath, typeName)`. -/
structure WriteJSONArgs where
  data : String
  imageName : String
  outputPath : String
  typeName : String
deriving DecidableEq, Repr

/-- The method `writeJSON`: `marshal` stands for `json.Marshal`; on success the
result is the call to `pkg.WriteJSON` that the method ends with. -/
def writeJSON (marshal : Report → Except String String) (r : Report) :
    Except String WriteJSONArgs :=
  match marshal r with
  | .error err => .error err
  | .ok data => .ok ⟨data, r.Flags.IndexImage, r.Flags.OutputPath, "package"⟩

end Packages

/-! ## Channels report -/

namespace Channels

/-- The fields of `BindFlags` that the writers read. -/
structure BindFlags where
  IndexImage : String
  OutputPath : String
deriving DecidableEq, Repr

/-- The fields of the channels `Column` that `writeXls` reads. -/
structure Column where
  PackageName : String
  ChannelName : String
  IsUsingSkips : Bool
  IsUsingSkipRange : Bool
  IsFollowingNameConvention : Bool
  HasInvalidVersioning : Bool
  HasInvalidSkipRange : Bool
  AuditErrors : List String
deriving DecidableEq, Repr

structure Report where
  Columns : List Column
  Flags : BindFlags
  IndexImageInspect : DockerInspectManifest
  GenerateAt : String
deriving DecidableEq, Repr

def styleOrange : Style := ⟨"#ec8f1c"⟩

/-- The map literal `columns` of `writeXls`. -/
def columns : List (String × String) :=
  [("A", "Package Name"),
   ("B", "Channel Name"),
   ("C", "Is using skips"),
   ("D", "Is using skipRange"),
   ("E", "Is Following Name Convention"),
   ("F", "Has Invalid Versioning"),
   ("G", "Has Invalid SkipRange"),
   ("H", "Issues (To process this report)")]

/-- The header block, rows 1 to 4; `dt` is `time.Now().Format("2006-01-02")`. -/
def headerOps (dt : String) (r : Report) : List Op :=
  [.setCellValue ⟨"A", 1⟩ (.str ("Audit Channels Report (Generated at " ++ dt ++ ")")),
   .setCellValue ⟨"A", 2⟩ (.str "Image used"),
   .setCellValue ⟨"B", 2⟩ (.str r.Flags.IndexImage),
   .setCellValue ⟨"A", 3⟩ (.str "Image Index Create Date:"),
   .setCellValue ⟨"B", 3⟩ (.str r.IndexImageInspect.Created),
   .setCellValue ⟨"A", 4⟩ (.str "Image Index ID:"),
   .setCellValue ⟨"B", 4⟩ (.str r.IndexImageInspect.ID)]

/-- Body of the loop `for k, v := range r.Columns` for one element, with
`line := k + 6` already computed. -/
def rowOps (h : PkgHelpers) (line : Nat) (v : Column) : List Op :=
  [.setCellValue ⟨"A", line⟩ (.str v.PackageName),
   .setCellValue ⟨"B", line⟩ (.str v.ChannelName),
   .setCellValue ⟨"C", line⟩ (.str (h.GetYesOrNo v.IsUsingSkips)),
   .setCellValue ⟨"D", line⟩ (.str (h.GetYesOrNo v.IsUsingSkipRange)),
   .setCellValue ⟨"E", line⟩ (.str (h.GetYesOrNo v.IsFollowingNameConvention))] ++
  styleIf (!v.IsFollowingNameConvention) ⟨"E", line⟩ styleOrange ++
  [.setCellValue ⟨"F", line⟩ (.str (h.GetYesOrNo v.HasInvalidVersioning))] ++
  styleIf v.HasInvalidVersioning ⟨"F", line⟩ styleOrange ++
  [.setCellValue ⟨"G", line⟩ (.str (h.GetYesOrNo v.HasInvalidSkipRange))] ++
  styleIf v.HasInvalidSkipRange ⟨"G", line⟩ styleOrange ++
  [.setCellValue ⟨"H", line⟩ (.strs v.AuditErrors)]

/-- The loop `for k, v := range r.Columns`, from index `k` on. -/
def dataOps (h : PkgHelpers) (k : Nat) (cols : List Column) : List Op :=
  rowsFrom (rowOps h) k cols

/-- All calls of `writeXls` on the workbook, in the order issued. -/
def writeXlsOps (h : PkgHelpers) (dt : String) (order : List (String × String))
    (r : Report) : List Op :=
  headerOps dt r ++ labelOps order ++ dataOps h 0 r.Columns ++
  [.addTable ⟨"A", 5⟩ ⟨"H", 5⟩ h.TableFormat,
   .saveAs r.Flags.OutputPath ⟨r.Flags.IndexImage, "channels", "xlsx"⟩]

/-- The workbook `writeXls` builds and saves. -/
def writeXls (h : PkgHelpers) (dt : String) (order : List (String × String))
    (r : Report) : File :=
  NewFile.run (writeXlsOps h dt order r)

/-- The method `writeJSON`, ending in the call to `pkg.WriteJSON`. -/
def writeJSON (marshal : Report → Except String String) (r : Report) :
    Except String Packages.WriteJSONArgs :=
  match marshal r with
  | .error err => .error err
  | .ok data => .ok ⟨data, r.Flags.IndexImage, r.Flags.OutputPath, "channels"⟩

end Channels

/-! ## Bundle extraction (`pkg/actions/get_bundle.go`) -/

namespace Actions

/-- An entry of `manifest.json`. -/
structure Manifest where
  Config : String
  Layers : List String
deriving DecidableEq, Repr

/-- The bundle that `apimanifests.GetBundleFromDir` reads; its contents play no
part in this file, so only a name is kept. -/
structure Bundle where
  Name : String
deriving DecidableEq, Repr

/-- The fields of `models.AuditBundle` that `get_bundle.go` reads or writes;
`Bundle = none` is the nil pointer. -/
structure AuditBundle where
  OperatorBundleImagePath : String
  OperatorBundleName : String
  Errors : List String
  FoundLabel : Bool
  BuildAt : String
  OCPLabel : String
  Bundle : Option Bundle
deriving DecidableEq, Repr

/-- What the function asks of the outside world, in the order asked.
`command argv` is `pkg.RunCommand(exec.Command(argv...))`. -/
inductive Event where
  | command (argv : List String)
  | readFile (path : String)
  | dockerInspect (image : String)
  | getBundleFromDir (dir : String)
  | runScorecard (dir : String)
  | runValidators
deriving DecidableEq, Repr

/-- The outside world: each answer may depend on everything asked before.
`Unmarshal` gives the slice left in `bundleLayerConfig` (`none` for nil) and the
error; `GetBundleFromDir` gives the pointer and the error it returns. -/
structure Env where
  RunCommand : List Event → List String → Option String
  ReadFile : List Event → String → Except String String
  Unmarshal : String → Option (List Manifest) × Option String
  RunDockerInspect : List Event → String → Except String DockerInspectManifest
  GetBundleFromDir : List Event → String → Option Bundle × Option String
  RunScorecard : List Event → String → AuditBundle → AuditBundle
  RunValidators : List Event → AuditBundle → AuditBundle
  Join : String → String → String

/-- The audit bundle being filled in and the requests made so far. -/
structure St where
  ab : AuditBundle
  trace : List Event
deriving DecidableEq, Repr

/-- How a call ends: it returns, or a run-time panic unwinds it. -/
inductive Outcome where
  | returned (s : St)
  | panicked (s : St)
deriving DecidableEq, Repr

/-- The call `pkg.RunCommand(exec.Command(argv...))`: the error, if any. -/
def runCommand (env : Env) (s : St) (argv : List String) : Option String × St :=
  (env.RunCommand s.trace argv, { s with trace := s.trace ++ [.command argv] })

/-- The statement `auditBundle.Errors = append(auditBundle.Errors, msg)`. -/
def addError (s : St) (msg : String) : St :=
  { s with ab := { s.ab with Errors := s.ab.Errors ++ [msg] } }

/-- Run a command and, when it fails, append `msg ++ err` to the errors. -/
def runCommandOrRecord (env : Env) (s : St) (argv : List String) (msg : String) : St :=
  match runCommand env s argv with
  | (some err, s1) => addError s1 (msg ++ err)
  | (none, s1) => s1

/-- Run a command and drop its result: `_, _ = pkg.RunCommand(cmd)`. -/
def runCommandIgnore (env : Env) (s : St) (argv : List String) : St :=
  (runCommand env s argv).2

/-- The expression `strings.Split(s, "@")[0]`: the text before the first `@`. -/
def beforeAt (s : String) : String :=
  String.mk (s.toList.takeWhile (fun c => c ≠ '@'))

def createBundleDir (env : Env) (s : St) : String × St :=
  let dir := "./tmp/" ++ s.ab.OperatorBundleName
  (dir, runCommandOrRecord env s ["mkdir", dir] "unable to create the dir for the bundle: ")

/-- The loop `for _, layer := range bundleLayerConfig[0].Layers`. -/
def untarLayers (env : Env) (bundleDir : String) : List String → St → St
  | [], s => s
  | layer :: rest, s =>
    untarLayers env bundleDir rest
      (runCommandOrRecord env s
        ["tar", "-xvf", env.Join bundleDir layer, "-C", env.Join bundleDir "bundle"]
        "error to untar layers : ")

/-- The three `rm -rf` calls that end `extractBundleFromImage`. -/
def removeMarkers (env : Env) (bundleDir : String) (s : St) : St :=
  let s := runCommandIgnore env s ["rm", "-rf", bundleDir ++ "/bundle/manifests/.wh..wh..opq"]
  let s := runCommandIgnore env s ["rm", "-rf", bundleDir ++ "/bundle/metadata/.wh..wh..opq"]
  runCommandIgnore env s ["rm", "-rf", bundleDir ++ "/bundle/root/"]

def extractBundleFromImage (env : Env) (s : St) (bundleDir : String) : Outcome :=
  let imageName := beforeAt s.ab.OperatorBundleImagePath
  let tarPath := bundleDir ++ "/" ++ s.ab.OperatorBundleName ++ ".tar"
  let s := runCommandOrRecord env s ["docker", "save", imageName, "-o", tarPath]
    "unable to save the bundle image : "
  let s := runCommandOrRecord env s ["tar", "-xvf", tarPath, "-C", bundleDir]
    "unable to untar the bundle image : "
  let s := runCommandOrRecord env s ["mkdir", env.Join bundleDir "bundle"]
    "error to create the bundle bundleDir : "
  let bundleConfigFilePath := env.Join bundleDir "manifest.json"
  let read := env.ReadFile s.trace bundleConfigFilePath
  let s := { s with trace := s.trace ++ [.readFile bundleConfigFilePath] }
  match read with
  | .ok existingFile =>
    let (bundleLayerConfig, uerr) := env.Unmarshal existingFile
    let s := match uerr with
      | some err => addError s ("unable to Unmarshal manifest.json: " ++ err)
      | none => s
    -- the `err` printed here is the nil error of `ReadFile`
    let s := match bundleLayerConfig with
      | none => addError s "error to untar layers: %!s(<nil>)"
      | some _ => s
    -- `bundleLayerConfig[0]`
    match bundleLayerConfig with
    | some (m :: _) => .returned (removeMarkers env bundleDir (untarLayers env bundleDir m.Layers s))
    | _ => .panicked s
  | .error _ =>
    let s := runCommandOrRecord env s
      ["tar", "-xvf", bundleDir ++ "/layer.tar", "-C", env.Join bundleDir "bundle"]
      "unable to untar layer: "
    .returned (removeMarkers env bundleDir s)

def cleanupBundleDir (env : Env) (s : St) (dir : String) (serverMode : Bool) : St :=
  let s := runCommandIgnore env s ["rm", "-rf", dir]
  if !serverMode then
    runCommandIgnore env s ["docker", "rmi", s.ab.OperatorBundleImagePath]
  else s

def DownloadImage (env : Env) (s : St) (image : String) : Option String × St :=
  runCommand env s ["docker", "pull", image]

/-- The `else` branch after `pkg.RunDockerInspect` succeeded. -/
def applyInspect (ab : AuditBundle) (inspectManifest : DockerInspectManifest)
    (label labelValue : String) : AuditBundle :=
  let ab :=
    if label.length > 0 then
      if mapLookup inspectManifest.DockerConfig.Labels label = labelValue then
        { ab with FoundLabel := true }
      else ab
    else ab
  let ab :=
    if inspectManifest.Created.length > 0 then
      { ab with BuildAt := inspectManifest.Created }
    else
      { ab with BuildAt := mapLookup inspectManifest.DockerConfig.Labels "build-date" }
  { ab with OCPLabel := mapLookup inspectManifest.DockerConfig.Labels "com.redhat.openshift.versions" }

/-- What follows `extractBundleFromImage` in `GetDataFromBundleImage`. -/
def afterExtract (env : Env) (s : St) (bundleDir : String)
    (disableScorecard disableValidators serverMode : Bool) (label labelValue : String) : St :=
  let path := s.ab.OperatorBundleImagePath
  let inspect := env.RunDockerInspect s.trace path
  let s := { s with trace := s.trace ++ [.dockerInspect path] }
  let s := match inspect with
    | .error err => addError s err
    | .ok inspectManifest => { s with ab := applyInspect s.ab inspectManifest label labelValue }
  let bundlePath := env.Join bundleDir "bundle"
  let (bundle, err) := env.GetBundleFromDir s.trace bundlePath
  let s := { ab := { s.ab with Bundle := bundle }, trace := s.trace ++ [.getBundleFromDir bundlePath] }
  match err with
  | some e => addError s ("unable to get the bundle: " ++ e)
  | none =>
    let s :=
      if !disableScorecard then
        { ab := env.RunScorecard s.trace (env.Join bundleDir "bundle") s.ab,
          trace := s.trace ++ [.runScorecard (env.Join bundleDir "bundle")] }
      else s
    let s :=
      if !disableValidators then
        { ab := env.RunValidators s.trace s.ab, trace := s.trace ++ [.runValidators] }
      else s
    cleanupBundleDir env s bundleDir serverMode

def GetDataFromBundleImage (env : Env) (auditBundle : AuditBundle)
    (disableScorecard disableValidators serverMode : Bool) (label labelValue : String) :
    Outcome :=
  let s : St := ⟨auditBundle, []⟩
  if auditBundle.OperatorBundleImagePath.length < 1 then
    .returned (addError s "not found bundle path stored in the index.db")
  else
    match DownloadImage env s auditBundle.OperatorBundleImagePath with
    | (some err, s) =>
      .returned (addError s ("unable to download container image (" ++
        auditBundle.OperatorBundleImagePath ++ "): " ++ err))
    | (none, s) =>
      let (bundleDir, s) := createBundleDir env s
      match extractBundleFromImage env s bundleDir with
      | .panicked s => .panicked s
      | .returned s =>
        .returned (afterExtract env s bundleDir disableScorecard disableValidators serverMode
          label labelValue)

end Actions

/-! ## Sample inputs -/

/-- A rendering of the `pkg` helpers used to evaluate the writers. -/
def sampleHelpers : PkgHelpers :=
  { GetYesOrNo := fun b => if b then "YES" else "NO"
    GetFormatArrayWithBreakLine := fun l => "\n".intercalate l
    TableFormat := "table" }

def sampleInspect : DockerInspectManifest :=
  { ID := "sha256:0a1b", Created := "2021-05-30T10:00:00Z", DockerConfig := ⟨[]⟩ }

namespace Packages

/-- A package with invalid versioning and no validator errors, whose
failing-tests flag is set while the list of failing tests is empty. -/
def sampleColumn : Column :=
  { PackageName := "etcd"
    KindsDeprecateAPIs := []
    HasWebhooks := false
    MultipleArchitectures := ["amd64"]
    HasScorecardSuggestions := false
    HasScorecardFailingTests := true
    ScorecardFailingTests := []
    HasValidatorErrors := false
    HasValidatorWarnings := false
    HasInvalidVersioning := true
    HasInvalidSkipRange := false
    IsMultiChannel := false
    HasSupportForAllNamespaces := true
    HasSupportForSingleNamespace := true
    HasSupportForOwnNamespaces := true
    HasSupportForMultiNamespaces := false
    HasInfraAnnotation := false
    HasPossiblePerformIssues := false
    HasCustomScorecardTests := false
    AuditErrors := [] }

/-- A package with one failing scorecard test. -/
def sampleColumnFailing : Column :=
  { sampleColumn with
    PackageName := "prometheus"
    HasScorecardFailingTests := true
    ScorecardFailingTests := ["basic-check-spec"] }

/-- A run with the scorecard disabled and the validators enabled. -/
def sampleReport : Report :=
  { Columns := [sampleColumn, sampleColumnFailing]
    Flags := ⟨"quay.io/operatorhubio/catalog:latest", "out", true, false⟩
    IndexImageInspect := sampleInspect
    GenerateAt := "2021-06-01" }

/-- A report with more Columns than a sheet has rows left below the header. -/
def bigReport : Report :=
  { sampleReport with Columns := List.replicate 1048572 sampleColumn }

/-- A run with both the scorecard and the validators disabled. -/
def sampleReportNoChecks : Report :=
  { sampleReport with Flags := ⟨"quay.io/operatorhubio/catalog:latest", "out", true, true⟩ }

end Packages

namespace Channels

def sampleColumn : Column :=
  { PackageName := "etcd"
    ChannelName := "alpha"
    IsUsingSkips := false
    IsUsingSkipRange := true
    IsFollowingNameConvention := false
    HasInvalidVersioning := true
    HasInvalidSkipRange := false
    AuditErrors := [] }

def sampleReport : Report :=
  { Columns := [sampleColumn, { sampleColumn with ChannelName := "stable" }]
    Flags := ⟨"quay.io/operatorhubio/catalog:latest", "out"⟩
    IndexImageInspect := sampleInspect
    GenerateAt := "2021-06-01" }

end Channels

namespace Actions

/-- Whether a call ended in a panic. -/
def Outcome.panics : Outcome → Bool
  | .panicked _ => true
  | .returned _ => false

/-- The state a call ended in. -/
def Outcome.state : Outcome → St
  | .panicked s => s
  | .returned s => s

def sampleBundle : AuditBundle :=
  { OperatorBundleImagePath := "quay.io/example/etcd-bundle@sha256:0c1d"
    OperatorBundleName := "etcd"
    Errors := []
    FoundLabel := false
    BuildAt := ""
    OCPLabel := ""
    Bundle := none }

/-- A `manifest.json` with one entry and two layers. -/
def sampleManifestJSON : String :=
  "[\x7b\"Config\":\"c.json\",\"Layers\":[\"a/layer.tar\",\"b/layer.tar\"]\x7d]"

/-- What `json.Unmarshal` leaves in a `[]Manifest` for four contents: `null`
leaves the slice nil without error, `[]` gives an empty slice, the sample
manifest parses, anything else is a syntax error and leaves the slice nil. -/
def sampleUnmarshal (data : String) : Option (List Manifest) × Option String :=
  if data = "null" then (none, none)
  else if data = "[]" then (some [], none)
  else if data = sampleManifestJSON then
    (some [⟨"c.json", ["a/layer.tar", "b/layer.tar"]⟩], none)
  else (none, some "invalid character")

/-- The path without a leading `./`, as `filepath.Join` cleans it. -/
def dropDotSlash (s : String) : String :=
  match s.toList with
  | '.' :: '/' :: rest => String.mk rest
  | _ => s

/-- An environment in which the commands selected by `failing` fail, reading
`manifest.json` gives `manifest` and reading the bundle gives `bundle`. Paths
are joined with a slash after dropping a leading `./`. -/
def sampleEnv (failing : List String → Bool) (manifest : Except String String)
    (bundle : Option Bundle × Option String) : Env :=
  { RunCommand := fun _ argv => if failing argv then some "exit status 1" else none
    ReadFile := fun _ _ => manifest
    Unmarshal := sampleUnmarshal
    RunDockerInspect := fun _ _ => .ok sampleInspect
    GetBundleFromDir := fun _ _ => bundle
    RunScorecard := fun _ _ ab => ab
    RunValidators := fun _ ab => ab
    Join := fun a b => dropDotSlash a ++ "/" ++ b }

/-- The image cannot be pulled. -/
def envPullFails : Env :=
  sampleEnv (fun argv => argv.take 2 = ["docker", "pull"]) (.ok sampleManifestJSON)
    (some ⟨"etcd"⟩, none)

/-- Every command succeeds and `manifest.json` has the given content. -/
def envManifest (content : String) : Env :=
  sampleEnv (fun _ => false) (.ok content) (some ⟨"etcd"⟩, none)

/-- Every command succeeds, but the extracted directory is not a bundle. -/
def envNoBundle : Env :=
  sampleEnv (fun _ => false) (.ok sampleManifestJSON) (none, some "no such file or directory")

/-- Every command succeeds and the bundle is read. -/
def envAllGood : Env :=
  sampleEnv (fun _ => false) (.ok sampleManifestJSON) (some ⟨"etcd"⟩, none)

end Actions

/-! ## The working directory -/

namespace Actions

/-- A file or directory, as the list of its path components below the
directory the program runs in. -/
abbrev Path := List String

/-- The files and directories that exist. -/
abbrev FS := List Path

/-- Components of a slash-separated path; `cur` holds the characters of the
component being read, last first. -/
def splitSlash : List Char → List Char → List String
  | [], cur => [String.mk cur.reverse]
  | c :: cs, cur =>
    if c = '/' then String.mk cur.reverse :: splitSlash cs []
    else splitSlash cs (c :: cur)

/-- Drop empty and `.` components and let `..` cancel the component before it;
`acc` holds the components kept so far, last first. -/
def cleanComponents : List String → List String → Path
  | [], acc => acc.reverse
  | c :: cs, acc =>
    if c = "" ∨ c = "." then cleanComponents cs acc
    else if c = ".." then cleanComponents cs acc.tail
    else cleanComponents cs (c :: acc)

/-- The file a relative path string names. -/
def resolve (s : String) : Path :=
  cleanComponents (splitSlash s.toList []) []

/-- Whether `q` is the path `p` or lies below it. -/
def under (p q : Path) : Bool :=
  p.isPrefixOf q

/-- Whether the last component of a path starts with `.wh.`, the mark of a
whiteout file of an image layer. -/
def isWhiteout (q : Path) : Bool :=
  match q.getLast? with
  | some c => (".wh.".toList).isPrefixOf c.toList
  | none => false

/-- What a command that succeeds does to the files: `tar -xvf a -C d` puts the
members of the archive `a` below `d`, `rm -rf p` removes `p` and all below it,
`mkdir d` creates `d`, `docker save .. -o t` writes `t`. The members of each
archive are given by `archive`. -/
def fsCommand (archive : Path → List Path) (fs : FS) (argv : List String) : FS :=
  match argv with
  | [tool, a, b] =>
    if tool = "rm" ∧ a = "-rf" then fs.filter (fun q => !under (resolve b) q)
    else fs
  | [tool, d] =>
    if tool = "mkdir" then fs ++ [resolve d] else fs
  | [tool, flag, a, c, d] =>
    if tool = "tar" ∧ flag = "-xvf" ∧ c = "-C" then
      fs ++ (archive (resolve a)).map (fun m => resolve d ++ m)
    else if tool = "docker" ∧ flag = "save" ∧ c = "-o" then fs ++ [resolve d]
    else fs
  | _ => fs

/-- The files after the requests `todo`, made after the requests `done`: a
command changes the files when the environment lets it succeed. -/
def fsReplay (env : Env) (archive : Path → List Path) : List Event → List Event → FS → FS
  | _, [], fs => fs
  | done, .command argv :: rest, fs =>
    fsReplay env archive (done ++ [.command argv]) rest
      (if (env.RunCommand done argv).isNone then fsCommand archive fs argv else fs)
  | done, .readFile path :: rest, fs => fsReplay env archive (done ++ [.readFile path]) rest fs
  | done, .dockerInspect i :: rest, fs =>
    fsReplay env archive (done ++ [.dockerInspect i]) rest fs
  | done, .getBundleFromDir d :: rest, fs =>
    fsReplay env archive (done ++ [.getBundleFromDir d]) rest fs
  | done, .runScorecard d :: rest, fs =>
    fsReplay env archive (done ++ [.runScorecard d]) rest fs
  | done, .runValidators :: rest, fs => fsReplay env archive (done ++ [.runValidators]) rest fs

/-- The requests `extractBundleFromImage` makes before it looks at the manifest. -/
def prepareEvents (env : Env) (ab : AuditBundle) (bundleDir : String) : List Event :=
  [.command ["docker", "save", beforeAt ab.OperatorBundleImagePath, "-o",
     bundleDir ++ "/" ++ ab.OperatorBundleName ++ ".tar"],
   .command ["tar", "-xvf", bundleDir ++ "/" ++ ab.OperatorBundleName ++ ".tar", "-C", bundleDir],
   .command ["mkdir", env.Join bundleDir "bundle"],
   .readFile (env.Join bundleDir "manifest.json")]

/-- The extraction command of one layer of the manifest. -/
def layerEvent (env : Env) (bundleDir layer : String) : Event :=
  .command ["tar", "-xvf", env.Join bundleDir layer, "-C", env.Join bundleDir "bundle"]

/-- The three `rm -rf` commands that end `extractBundleFromImage`. -/
def markerEvents (bundleDir : String) : List Event :=
  [.command ["rm", "-rf", bundleDir ++ "/bundle/manifests/.wh..wh..opq"],
   .command ["rm", "-rf", bundleDir ++ "/bundle/metadata/.wh..wh..opq"],
   .command ["rm", "-rf", bundleDir ++ "/bundle/root/"]]

/-- Whether the code records the failure of a command in `Errors`: it does for
every command but `rm` and `docker rmi`, whose results it drops. -/
def recorded (argv : List String) : Bool :=
  !(argv.head? = some "rm" || argv.take 2 = ["docker", "rmi"])

/-- The errors `errs` the bundle came with have only been appended to, and
the list has grown if a command whose failure is recorded has failed. -/
def ErrorsKept (env : Env) (errs : List String) (s : St) : Prop :=
  errs <+: s.ab.Errors ∧
  ∀ pre argv post, s.trace = pre ++ Event.command argv :: post → recorded argv = true →
    env.RunCommand pre argv ≠ none → errs.length < s.ab.Errors.length

/-- The image is pulled, but `docker save` fails. -/
def envSaveFails : Env :=
  sampleEnv (fun argv => argv.take 2 = ["docker", "save"]) (.ok sampleManifestJSON)
    (some ⟨"etcd"⟩, none)

/-- The members of the archives of the sample image: the saved image holds the
manifest and two layers; the layers hold a bundle with whiteout files. -/
def sampleArchive (a : Path) : List Path :=
  if a = ["tmp", "etcd", "etcd.tar"] then
    [["manifest.json"], ["a", "layer.tar"], ["b", "layer.tar"]]
  else if a = ["tmp", "etcd", "a", "layer.tar"] then
    [["manifests"], ["manifests", "etcd.csv.yaml"], ["manifests", ".wh..wh..opq"],
     ["metadata"], ["metadata", "annotations.yaml"]]
  else if a = ["tmp", "etcd", "b", "layer.tar"] then
    [["manifests", ".wh.old.crd.yaml"], ["tests"], ["tests", ".wh..wh..opq"],
     ["root"], ["root", "buildinfo"]]
  else []

/-- Every command succeeds and `manifest.json` lists two manifests, the second
with a layer of its own. -/
def envTwoManifests : Env :=
  { envAllGood with
    Unmarshal := fun _ =>
      (some [⟨"c.json", ["a/layer.tar", "b/layer.tar"]⟩, ⟨"d.json", ["c/layer.tar"]⟩], none) }

/-- No `manifest.json` can be read and the single layer cannot be extracted. -/
def envNoManifest : Env :=
  sampleEnv (fun argv => argv.take 3 = ["tar", "-xvf", "./tmp/etcd/layer.tar"])
    (.error "no such file or directory") (some ⟨"etcd"⟩, none)

end Actions

/-! ## The workbook: frame and locality -/

@[simp] theorem File.run_nil (f : File) : f.run [] = f := rfl

@[simp] theorem File.run_cons (f : File) (op : Op) (ops : List Op) :
    f.run (op :: ops) = (f.apply op).run ops := rfl

@[simp] theorem File.run_append (f : File) (a b : List Op) :
    f.run (a ++ b) = (f.run a).run b := by
  simp [File.run, List.foldl_append]

@[simp] theorem File.apply_setCellValue_value (f : File) (c d : Cell) (v : CellValue) :
    (f.apply (.setCellValue c v)).value d =
      if c.valid = true ∧ d = c then some v else f.value d := by
  cases hc : c.valid <;> simp [File.apply, hc]

@[simp] theorem File.apply_setCellStyle_value (f : File) (c d : Cell) (s : Style) :
    (f.apply (.setCellStyle c s)).value d = f.value d := by
  cases hc : c.valid <;> simp [File.apply, hc]

@[simp] theorem File.apply_addComment_value (f : File) (c d : Cell) (t : String) :
    (f.apply (.addComment c t)).value d = f.value d := rfl

@[simp] theorem File.apply_setCellValue_style (f : File) (c d : Cell) (v : CellValue) :
    (f.apply (.setCellValue c v)).style d = f.style d := by
  cases hc : c.valid <;> simp [File.apply, hc]

@[simp] theorem File.apply_setCellStyle_style (f : File) (c d : Cell) (s : Style) :
    (f.apply (.setCellStyle c s)).style d =
      if c.valid = true ∧ d = c then some s else f.style d := by
  cases hc : c.valid <;> simp [File.apply, hc]

@[simp] theorem File.apply_addComment_style (f : File) (c d : Cell) (t : String) :
    (f.apply (.addComment c t)).style d = f.style d := rfl

@[simp] theorem File.run_styleIf_style (f : File) (b : Bool) (c d : Cell) (s : Style) :
    (f.run (styleIf b c s)).style d =
      if b = true ∧ c.valid = true ∧ d = c then some s else f.style d := by
  cases b <;> simp [styleIf]

@[simp] theorem File.run_styleIfElse_style (f : File) (b : Bool) (c d : Cell) (s t : Style) :
    (f.run (styleIfElse b c s t)).style d =
      if c.valid = true ∧ d = c then some (if b then s else t) else f.style d := by
  cases b <;> simp [styleIfElse]

@[simp] theorem File.run_styleIf_value (f : File) (b : Bool) (c d : Cell) (s : Style) :
    (f.run (styleIf b c s)).value d = f.value d := by
  cases b <;> simp [styleIf]

@[simp] theorem File.run_styleIfElse_value (f : File) (b : Bool) (c d : Cell) (s t : Style) :
    (f.run (styleIfElse b c s t)).value d = f.value d := by
  cases b <;> simp [styleIfElse]

/-- Calls that do not write to row `c.row` leave the cell `c` as it was. -/
theorem File.run_frame (c : Cell) (ops : List Op) (hrow : ∀ op ∈ ops, op.row? ≠ some c.row)
    (f : File) :
    (f.run ops).value c = f.value c ∧ (f.run ops).style c = f.style c := by
  induction ops generalizing f with
  | nil => simp
  | cons op ops ih =>
    have h1 := hrow op (List.mem_cons_self _ _)
    have h2 := ih (fun o ho => hrow o (List.mem_cons_of_mem _ ho)) (f.apply op)
    have hne : ∀ d : Cell, d.row ≠ c.row → c ≠ d := fun d hd e => hd (e ▸ rfl)
    rw [File.run_cons, h2.1, h2.2]
    cases op with
    | setCellValue d v =>
      have := hne d (by simpa [Op.row?] using h1)
      simp [this]
    | setCellStyle d v =>
      have := hne d (by simpa [Op.row?] using h1)
      simp [this]
    | addComment d t => exact ⟨rfl, rfl⟩
    | setColVisible a b => exact ⟨rfl, rfl⟩
    | addTable a b t => exact ⟨rfl, rfl⟩
    | saveAs a b => exact ⟨rfl, rfl⟩

/-- What a sequence of calls makes of a cell depends only on what the cell was. -/
theorem File.run_local (c : Cell) (ops : List Op) (f g : File)
    (hv : f.value c = g.value c) (hs : f.style c = g.style c) :
    (f.run ops).value c = (g.run ops).value c ∧ (f.run ops).style c = (g.run ops).style c := by
  induction ops generalizing f g with
  | nil => exact ⟨hv, hs⟩
  | cons op ops ih =>
    simp only [File.run_cons]
    apply ih <;> cases op <;>
      first
        | simp [hv, hs]
        | exact hv
        | exact hs

/-- The style a sequence of calls leaves on a cell depends only on the style it had. -/
theorem File.run_local_style (c : Cell) (ops : List Op) (f g : File)
    (hs : f.style c = g.style c) : (f.run ops).style c = (g.run ops).style c := by
  induction ops generalizing f g with
  | nil => exact hs
  | cons op ops ih =>
    simp only [File.run_cons]
    apply ih; cases op <;>
      first
        | simp [hs]
        | exact hs

/-- Two `SetCellValue` calls on different cells can be issued in either order. -/
theorem File.apply_setCellValue_comm (f : File) (c d : Cell) (v w : CellValue) (hne : c ≠ d) :
    (f.apply (.setCellValue c v)).apply (.setCellValue d w) =
      (f.apply (.setCellValue d w)).apply (.setCellValue c v) := by
  cases hc : c.valid <;> cases hd : d.valid <;>
    simp only [File.apply, hc, hd, if_true, if_false, Bool.false_eq_true]
  congr 1
  funext x
  by_cases h1 : x = d
  · by_cases h2 : x = c
    · exact absurd (h2.symm.trans h1) hne
    · subst h1
      simp [h2]
  · simp [h1]

/-- The header labels end up the same in whatever order the map is ranged,
because its keys are distinct. -/
theorem run_labelOps_perm {l1 l2 : List (String × String)} (hp : l1.Perm l2)
    (hnd : (l1.map Prod.fst).Nodup) (f : File) :
    f.run (labelOps l1) = f.run (labelOps l2) := by
  induction hp generalizing f with
  | nil => rfl
  | cons x _ ih =>
    simp only [labelOps, List.map_cons, File.run_cons] at ih ⊢
    exact ih (List.nodup_cons.1 hnd).2 _
  | swap x y l =>
    simp only [labelOps, List.map_cons, File.run_cons]
    have hne : y.1 ≠ x.1 := by
      intro e
      have := (List.nodup_cons.1 hnd).1
      simp [e] at this
    rw [File.apply_setCellValue_comm]
    intro e
    exact hne (congrArg Cell.col e)
  | trans p1 _ ih1 ih2 =>
    exact (ih1 hnd f).trans (ih2 ((p1.map Prod.fst).nodup_iff.1 hnd) f)

/-- Calls on cells leave the column visibility as it was. -/
theorem File.run_hidden (ops : List Op) (hrow : ∀ op ∈ ops, ∃ j, op.row? = some j) (f : File) :
    (f.run ops).hidden = f.hidden := by
  induction ops generalizing f with
  | nil => rfl
  | cons op ops ih =>
    rw [File.run_cons, ih (fun o ho => hrow o (List.mem_cons_of_mem _ ho))]
    obtain ⟨j, hj⟩ := hrow op (List.mem_cons_self _ _)
    cases op with
    | setCellValue d v => cases hd : d.valid <;> simp [File.apply, hd]
    | setCellStyle d v => cases hd : d.valid <;> simp [File.apply, hd]
    | addComment d t => rfl
    | setColVisible a b => simp [Op.row?] at hj
    | addTable a b t => simp [Op.row?] at hj
    | saveAs a b => simp [Op.row?] at hj

theorem mem_labelOps_row (order : List (String × String)) :
    ∀ op ∈ labelOps order, op.row? = some 5 := by
  intro op hop
  simp only [labelOps, List.mem_map] at hop
  obtain ⟨kv, _, rfl⟩ := hop
  rfl

theorem mem_styleIf_row (b : Bool) (c : Cell) (s : Style) :
    ∀ op ∈ styleIf b c s, op.row? = some c.row := by
  intro op hop
  cases b <;> simp [styleIf] at hop
  subst hop; rfl

theorem mem_styleIfElse_row (b : Bool) (c : Cell) (s t : Style) :
    ∀ op ∈ styleIfElse b c s t, op.row? = some c.row := by
  intro op hop
  cases b <;> simp [styleIfElse] at hop <;> (subst hop; rfl)

/-! ## The data loop -/

/-- Every call of the data loop comes from the pass for some element `i` and
writes to row `k + i + 6`. -/
theorem mem_rowsFrom {α : Type} (body : Nat → α → List Op) (cols : List α) (k : Nat) :
    ∀ op ∈ rowsFrom body k cols, ∃ i v, cols[i]? = some v ∧ op ∈ body (k + i + 6) v := by
  induction cols generalizing k with
  | nil => intro op hop; cases hop
  | cons w ws ih =>
    intro op hop
    simp only [rowsFrom, List.mem_append] at hop
    rcases hop with hop | hop
    · exact ⟨0, w, by simp, hop⟩
    · obtain ⟨i, v, h1, h2⟩ := ih (k + 1) op hop
      refine ⟨i + 1, v, by simpa using h1, ?_⟩
      have e : k + (i + 1) + 6 = k + 1 + i + 6 := by omega
      rw [e]; exact h2

theorem mem_rowsFrom_of_mem {α : Type} (body : Nat → α → List Op) (cols : List α) (k i : Nat) (v : α) (hv : cols[i]? = some v) :
    ∀ op ∈ body (k + i + 6) v, op ∈ rowsFrom body k cols := by
  induction cols generalizing k i with
  | nil => simp at hv
  | cons w ws ih =>
    intro op hop
    simp only [rowsFrom, List.mem_append]
    cases i with
    | zero =>
      simp only [List.getElem?_cons_zero, Option.some.injEq] at hv
      subst hv
      exact Or.inl hop
    | succ i =>
      simp only [List.getElem?_cons_succ] at hv
      have e : k + (i + 1) + 6 = k + 1 + i + 6 := by omega
      rw [e] at hop
      exact Or.inr (ih (k + 1) i hv op hop)

theorem mem_rowsFrom_row {α : Type} (body : Nat → α → List Op)
    (hbody : ∀ line v, ∀ op ∈ body line v, op.row? = some line)
    (cols : List α) (k : Nat) :
    ∀ op ∈ rowsFrom body k cols,
      ∃ j, k + 6 ≤ j ∧ j < k + 6 + cols.length ∧ op.row? = some j := by
  intro op hop
  obtain ⟨i, v, h1, h2⟩ := mem_rowsFrom body cols k op hop
  have hi : i < cols.length := by
    rcases Nat.lt_or_ge i cols.length with h | h
    · exact h
    · rw [List.getElem?_eq_none h] at h1; cases h1
  exact ⟨k + i + 6, by omega, by omega, hbody _ v op h2⟩

/-- After the data loop, the cells of row `k + i + 6` are what the pass for
element `i` alone makes of them. -/
theorem run_rowsFrom_row {α : Type} (body : Nat → α → List Op)
    (hbody : ∀ line v, ∀ op ∈ body line v, op.row? = some line)
    (cols : List α) (k i : Nat) (v : α)
    (hv : cols[i]? = some v) (col : String) (f : File) :
    ((f.run (rowsFrom body k cols)).value ⟨col, k + i + 6⟩ =
        (f.run (body (k + i + 6) v)).value ⟨col, k + i + 6⟩) ∧
    ((f.run (rowsFrom body k cols)).style ⟨col, k + i + 6⟩ =
        (f.run (body (k + i + 6) v)).style ⟨col, k + i + 6⟩) := by
  induction cols generalizing k i f with
  | nil => simp at hv
  | cons w ws ih =>
    simp only [rowsFrom, File.run_append]
    cases i with
    | zero =>
      simp only [List.getElem?_cons_zero, Option.some.injEq] at hv
      subst hv
      simp only [Nat.add_zero]
      have hframe : ∀ op ∈ rowsFrom body (k + 1) ws,
          op.row? ≠ some (Cell.mk col (k + 6)).row := by
        intro op hop
        obtain ⟨j, h1, _, h3⟩ := mem_rowsFrom_row body hbody ws (k + 1) op hop
        rw [h3]; simp only [ne_eq, Option.some.injEq]; omega
      exact File.run_frame (Cell.mk col (k + 6)) (rowsFrom body (k + 1) ws) hframe
        (f.run (body (k + 6) w))
    | succ i =>
      simp only [List.getElem?_cons_succ] at hv
      have e : k + (i + 1) + 6 = (k + 1) + i + 6 := by omega
      rw [e]
      have h1 := ih (k + 1) i hv (f.run (body (k + 6) w))
      have hframe : ∀ op ∈ body (k + 6) w,
          op.row? ≠ some (Cell.mk col (k + 1 + i + 6)).row := by
        intro op hop
        rw [hbody _ w op hop]; simp only [ne_eq, Option.some.injEq]; omega
      have h2 := File.run_frame (Cell.mk col (k + 1 + i + 6)) (body (k + 6) w) hframe f
      have h3 := File.run_local (Cell.mk col (k + 1 + i + 6)) (body (k + 1 + i + 6) v)
        (f.run (body (k + 6) w)) f h2.1 h2.2
      exact ⟨h1.1.trans h3.1, h1.2.trans h3.2⟩

/-- A workbook made of a header, the data loop and calls that touch no cell:
row `k + 6` holds what the pass for element `k` makes of empty cells. -/
theorem run_sheet_data_cell {α : Type} (body : Nat → α → List Op)
    (hbody : ∀ line v, ∀ op ∈ body line v, op.row? = some line)
    (pre post : List Op)
    (hpre : ∀ op ∈ pre, ∃ j, j ≤ 5 ∧ op.row? = some j)
    (hpost : ∀ op ∈ post, op.row? = none)
    (cols : List α) (k : Nat) (v : α) (hv : cols[k]? = some v) (col : String) :
    ((NewFile.run (pre ++ rowsFrom body 0 cols ++ post)).value ⟨col, k + 6⟩ =
        (NewFile.run (body (k + 6) v)).value ⟨col, k + 6⟩) ∧
    ((NewFile.run (pre ++ rowsFrom body 0 cols ++ post)).style ⟨col, k + 6⟩ =
        (NewFile.run (body (k + 6) v)).style ⟨col, k + 6⟩) := by
  have hpre1 : ∀ op ∈ pre, op.row? ≠ some (Cell.mk col (k + 6)).row := by
    intro op hop
    obtain ⟨j, hj, e⟩ := hpre op hop
    rw [e]; simp only [ne_eq, Option.some.injEq]; omega
  have hpost1 : ∀ op ∈ post, op.row? ≠ some (Cell.mk col (k + 6)).row := by
    intro op hop
    rw [hpost op hop]; simp
  simp only [File.run_append]
  have h1 := File.run_frame (Cell.mk col (k + 6)) post hpost1
    ((NewFile.run pre).run (rowsFrom body 0 cols))
  have h2 := run_rowsFrom_row body hbody cols 0 k v hv col (NewFile.run pre)
  simp only [Nat.zero_add] at h2
  have h3 := File.run_frame (Cell.mk col (k + 6)) pre hpre1 NewFile
  have h4 := File.run_local (Cell.mk col (k + 6)) (body (k + 6) v) (NewFile.run pre) NewFile
    h3.1 h3.2
  exact ⟨h1.1.trans (h2.1.trans h4.1), h1.2.trans (h2.2.trans h4.2)⟩

/-- In such a workbook the rows after the last data row stay empty. -/
theorem run_sheet_beyond {α : Type} (body : Nat → α → List Op)
    (hbody : ∀ line v, ∀ op ∈ body line v, op.row? = some line)
    (pre post : List Op)
    (hpre : ∀ op ∈ pre, ∃ j, j ≤ 5 ∧ op.row? = some j)
    (hpost : ∀ op ∈ post, op.row? = none)
    (cols : List α) (col : String) (j : Nat) (hj : cols.length + 6 ≤ j) :
    (NewFile.run (pre ++ rowsFrom body 0 cols ++ post)).value ⟨col, j⟩ = none ∧
    (NewFile.run (pre ++ rowsFrom body 0 cols ++ post)).style ⟨col, j⟩ = none := by
  refine File.run_frame (Cell.mk col j) _ ?_ NewFile
  intro op hop
  rcases List.mem_append.1 hop with hop | hop
  · rcases List.mem_append.1 hop with hop | hop
    · obtain ⟨i, hi, e⟩ := hpre op hop
      rw [e]; simp only [ne_eq, Option.some.injEq]; omega
    · obtain ⟨i, _, hi, e⟩ := mem_rowsFrom_row body hbody cols 0 op hop
      rw [e]; simp only [ne_eq, Option.some.injEq]; omega
  · rw [hpost op hop]; simp

/-- In such a workbook the data loop leaves rows 1 to 5 as the header wrote them. -/
theorem run_sheet_header {α : Type} (body : Nat → α → List Op)
    (hbody : ∀ line v, ∀ op ∈ body line v, op.row? = some line)
    (pre post : List Op)
    (hpost : ∀ op ∈ post, op.row? = none)
    (cols : List α) (col : String) (j : Nat) (hj : j ≤ 5) :
    (NewFile.run (pre ++ rowsFrom body 0 cols ++ post)).value ⟨col, j⟩ =
        (NewFile.run pre).value ⟨col, j⟩ ∧
    (NewFile.run (pre ++ rowsFrom body 0 cols ++ post)).style ⟨col, j⟩ =
        (NewFile.run pre).style ⟨col, j⟩ := by
  rw [List.append_assoc, File.run_append]
  refine File.run_frame (Cell.mk col j) _ ?_ (NewFile.run pre)
  intro op hop
  rcases List.mem_append.1 hop with hop | hop
  · obtain ⟨i, hi, _, e⟩ := mem_rowsFrom_row body hbody cols 0 op hop
    rw [e]; simp only [ne_eq, Option.some.injEq]; omega
  · rw [hpost op hop]; simp

/-- Cell calls of such a workbook leave the column visibility to `post`. -/
theorem run_sheet_hidden {α : Type} (body : Nat → α → List Op)
    (hbody : ∀ line v, ∀ op ∈ body line v, op.row? = some line)
    (pre post : List Op)
    (hpre : ∀ op ∈ pre, ∃ j, j ≤ 5 ∧ op.row? = some j) (cols : List α) :
    (NewFile.run (pre ++ rowsFrom body 0 cols ++ post)).hidden =
      ((NewFile.run (pre ++ rowsFrom body 0 cols)).run post).hidden ∧
    (NewFile.run (pre ++ rowsFrom body 0 cols)).hidden = fun _ => false := by
  refine ⟨by rw [File.run_append], ?_⟩
  refine File.run_hidden _ ?_ NewFile
  intro op hop
  rcases List.mem_append.1 hop with hop | hop
  · obtain ⟨j, _, e⟩ := hpre op hop
    exact ⟨j, e⟩
  · obtain ⟨j, _, _, e⟩ := mem_rowsFrom_row body hbody cols 0 op hop
    exact ⟨j, e⟩


/-! ## The calls on one cell -/

@[simp] theorem cellCalls_nil (c : Cell) : cellCalls [] c = [] := rfl

@[simp] theorem cellCalls_cons (op : Op) (ops : List Op) (c : Cell) :
    cellCalls (op :: ops) c =
      if op.cell? = some c then op :: cellCalls ops c else cellCalls ops c := by
  by_cases h : op.cell? = some c <;> simp [cellCalls, List.filter_cons, h]

@[simp] theorem cellCalls_append (a b : List Op) (c : Cell) :
    cellCalls (a ++ b) c = cellCalls a c ++ cellCalls b c := by
  simp [cellCalls]

@[simp] theorem cellCalls_styleIf (b : Bool) (c d : Cell) (s : Style) :
    cellCalls (styleIf b c s) d = if b = true ∧ c = d then [.setCellStyle c s] else [] := by
  cases b <;> simp [styleIf, Op.cell?]

@[simp] theorem cellCalls_styleIfElse (b : Bool) (c d : Cell) (s t : Style) :
    cellCalls (styleIfElse b c s t) d =
      if c = d then [.setCellStyle c (if b then s else t)] else [] := by
  cases b <;> simp [styleIfElse, Op.cell?]

/-- Calls that do not write to row `c.row` are no calls on the cell `c`. -/
theorem cellCalls_of_row_ne (ops : List Op) (c : Cell)
    (hrow : ∀ op ∈ ops, op.row? ≠ some c.row) : cellCalls ops c = [] := by
  rw [cellCalls, List.filter_eq_nil_iff]
  intro op hop
  have h1 := hrow op hop
  have hne : ∀ d : Cell, d.row ≠ c.row → d ≠ c := fun d hd e => hd (e ▸ rfl)
  cases op <;> simp [Op.cell?, Op.row?] at h1 ⊢ <;> exact hne _ h1

/-- The calls of the data loop on a cell of row `k + i + 6` are those of the
pass for element `i`. -/
theorem cellCalls_rowsFrom {α : Type} (body : Nat → α → List Op)
    (hbody : ∀ line v, ∀ op ∈ body line v, op.row? = some line)
    (cols : List α) (k i : Nat) (v : α) (hv : cols[i]? = some v) (col : String) :
    cellCalls (rowsFrom body k cols) ⟨col, k + i + 6⟩ =
      cellCalls (body (k + i + 6) v) ⟨col, k + i + 6⟩ := by
  induction cols generalizing k i with
  | nil => simp at hv
  | cons w ws ih =>
    simp only [rowsFrom, cellCalls_append]
    cases i with
    | zero =>
      simp only [List.getElem?_cons_zero, Option.some.injEq] at hv
      subst hv
      simp only [Nat.add_zero]
      rw [cellCalls_of_row_ne (rowsFrom body (k + 1) ws) ⟨col, k + 6⟩, List.append_nil]
      intro op hop
      obtain ⟨j, h1, _, h3⟩ := mem_rowsFrom_row body hbody ws (k + 1) op hop
      rw [h3]; simp only [ne_eq, Option.some.injEq]; omega
    | succ i =>
      simp only [List.getElem?_cons_succ] at hv
      have e : k + (i + 1) + 6 = (k + 1) + i + 6 := by omega
      rw [e, ih (k + 1) i hv, cellCalls_of_row_ne (body (k + 6) w), List.nil_append]
      intro op hop
      rw [hbody _ w op hop]; simp only [ne_eq, Option.some.injEq]; omega

/-- In a sequence made of a header, the data loop and calls that touch no
cell, the calls on a cell of row `k + 6` are those of the pass for element `k`. -/
theorem cellCalls_sheet {α : Type} (body : Nat → α → List Op)
    (hbody : ∀ line v, ∀ op ∈ body line v, op.row? = some line)
    (pre post : List Op)
    (hpre : ∀ op ∈ pre, ∃ j, j ≤ 5 ∧ op.row? = some j)
    (hpost : ∀ op ∈ post, op.row? = none)
    (cols : List α) (k : Nat) (v : α) (hv : cols[k]? = some v) (col : String) :
    cellCalls (pre ++ rowsFrom body 0 cols ++ post) ⟨col, k + 6⟩ =
      cellCalls (body (k + 6) v) ⟨col, k + 6⟩ := by
  have h2 := cellCalls_rowsFrom body hbody cols 0 k v hv col
  simp only [Nat.zero_add] at h2
  rw [cellCalls_append, cellCalls_append, h2, cellCalls_of_row_ne pre, cellCalls_of_row_ne post,
    List.nil_append, List.append_nil]
  · intro op hop
    rw [hpost op hop]; simp
  · intro op hop
    obtain ⟨j, hj, e⟩ := hpre op hop
    rw [e]; simp only [ne_eq, Option.some.injEq]; omega

/-! ## Packages workbook -/

namespace Packages

theorem mem_failingTestsOps_row (h : PkgHelpers) (line : Nat) (v : Column) :
    ∀ op ∈ failingTestsOps h line v, op.row? = some line := by
  intro op hop
  simp only [failingTestsOps, List.mem_append, List.mem_singleton] at hop
  rcases hop with rfl | hop
  · rfl
  · split at hop <;> simp at hop
    · rcases hop with rfl | rfl <;> rfl
    · subst hop; rfl

theorem mem_rowOps_row (h : PkgHelpers) (line : Nat) (v : Column) :
    ∀ op ∈ rowOps h line v, op.row? = some line := by
  unfold rowOps
  simp only [List.forall_mem_append, List.forall_mem_cons, List.forall_mem_singleton]
  and_intros
  all_goals first
    | rfl
    | exact mem_styleIf_row _ _ _
    | exact mem_styleIfElse_row _ _ _ _
    | exact mem_failingTestsOps_row _ _ _
    | (intro x hx; cases hx)

theorem mem_headerOps_row (dt : String) (r : Report) :
    ∀ op ∈ headerOps dt r, ∃ j, j ≤ 5 ∧ op.row? = some j := by
  unfold headerOps
  simp only [List.forall_mem_cons]
  and_intros
  all_goals first
    | exact ⟨1, by omega, rfl⟩
    | exact ⟨2, by omega, rfl⟩
    | exact ⟨3, by omega, rfl⟩
    | exact ⟨4, by omega, rfl⟩
    | (intro x hx; cases hx)

theorem mem_preOps_row (dt : String) (order : List (String × String)) (r : Report) :
    ∀ op ∈ headerOps dt r ++ labelOps order, ∃ j, j ≤ 5 ∧ op.row? = some j := by
  intro op hop
  rcases List.mem_append.1 hop with hop | hop
  · exact mem_headerOps_row dt r op hop
  · exact ⟨5, le_refl _, mem_labelOps_row order op hop⟩

theorem mem_postOps_row (h : PkgHelpers) (r : Report) :
    ∀ op ∈ visibilityOps r ++
      [Op.addTable ⟨"A", 5⟩ ⟨"S", 5⟩ h.TableFormat,
       Op.saveAs r.Flags.OutputPath ⟨r.Flags.IndexImage, "packages", "xlsx"⟩],
      op.row? = none := by
  intro op hop
  rcases List.mem_append.1 hop with hop | hop
  · simp only [visibilityOps, List.mem_append] at hop
    rcases hop with hop | hop <;> split at hop <;> simp at hop <;>
      (rcases hop with rfl | rfl <;> rfl)
  · simp only [List.mem_cons, List.mem_singleton, List.not_mem_nil, or_false] at hop
    rcases hop with rfl | rfl <;> rfl

theorem writeXls_eq (h : PkgHelpers) (dt : String) (order : List (String × String))
    (r : Report) :
    writeXls h dt order r =
      NewFile.run ((headerOps dt r ++ labelOps order) ++ rowsFrom (rowOps h) 0 r.Columns ++
        (visibilityOps r ++
          [Op.addTable ⟨"A", 5⟩ ⟨"S", 5⟩ h.TableFormat,
           Op.saveAs r.Flags.OutputPath ⟨r.Flags.IndexImage, "packages", "xlsx"⟩])) := by
  simp only [writeXls, writeXlsOps, dataOps, List.append_assoc]

/-- Every cell of data row `k + 6` of the finished workbook is what the loop
body for `r.Columns[k]` makes of an empty cell. -/
theorem writeXls_data_cell (h : PkgHelpers) (dt : String) (order : List (String × String))
    (r : Report) (k : Nat) (v : Column) (hv : r.Columns[k]? = some v) (col : String) :
    ((writeXls h dt order r).value ⟨col, k + 6⟩ =
        (NewFile.run (rowOps h (k + 6) v)).value ⟨col, k + 6⟩) ∧
    ((writeXls h dt order r).style ⟨col, k + 6⟩ =
        (NewFile.run (rowOps h (k + 6) v)).style ⟨col, k + 6⟩) := by
  rw [writeXls_eq]
  exact run_sheet_data_cell (rowOps h) (mem_rowOps_row h) _ _ (mem_preOps_row dt order r)
    (mem_postOps_row h r) r.Columns k v hv col

/-- Which columns the finished packages workbook hides. -/
theorem writeXls_hidden (h : PkgHelpers) (dt : String) (order : List (String × String))
    (r : Report) (c : String) :
    (writeXls h dt order r).hidden c =
      ((r.Flags.DisableScorecard && (c = "E" || c = "F")) ||
       (r.Flags.DisableValidators && (c = "G" || c = "H"))) := by
  obtain ⟨e1, e2⟩ := run_sheet_hidden (rowOps h) (mem_rowOps_row h)
    (headerOps dt r ++ labelOps order)
    (visibilityOps r ++
      [Op.addTable ⟨"A", 5⟩ ⟨"S", 5⟩ h.TableFormat,
       Op.saveAs r.Flags.OutputPath ⟨r.Flags.IndexImage, "packages", "xlsx"⟩])
    (mem_preOps_row dt order r) r.Columns
  rw [writeXls_eq, e1]
  generalize NewFile.run (headerOps dt r ++ labelOps order ++ rowsFrom (rowOps h) 0 r.Columns)
    = g at e2
  have e0 : ∀ d, g.hidden d = false := fun d => by rw [e2]
  unfold visibilityOps
  cases r.Flags.DisableScorecard <;> cases r.Flags.DisableValidators <;>
    simp [File.apply, e0, Bool.or_comm, Bool.or_left_comm, Bool.or_assoc]

end Packages

/-! ## Channels workbook -/

namespace Channels

theorem mem_rowOps_row_ch (h : PkgHelpers) (line : Nat) (v : Column) :
    ∀ op ∈ rowOps h line v, op.row? = some line := by
  unfold rowOps
  simp only [List.forall_mem_append, List.forall_mem_cons, List.forall_mem_singleton]
  and_intros
  all_goals first
    | rfl
    | exact mem_styleIf_row _ _ _
    | (intro x hx; cases hx)

theorem mem_headerOps_row_ch (dt : String) (r : Report) :
    ∀ op ∈ headerOps dt r, ∃ j, j ≤ 5 ∧ op.row? = some j := by
  unfold headerOps
  simp only [List.forall_mem_cons]
  and_intros
  all_goals first
    | exact ⟨1, by omega, rfl⟩
    | exact ⟨2, by omega, rfl⟩
    | exact ⟨3, by omega, rfl⟩
    | exact ⟨4, by omega, rfl⟩
    | (intro x hx; cases hx)

theorem mem_preOps_row_ch (dt : String) (order : List (String × String)) (r : Report) :
    ∀ op ∈ headerOps dt r ++ labelOps order, ∃ j, j ≤ 5 ∧ op.row? = some j := by
  intro op hop
  rcases List.mem_append.1 hop with hop | hop
  · exact mem_headerOps_row_ch dt r op hop
  · exact ⟨5, le_refl _, mem_labelOps_row order op hop⟩

theorem mem_postOps_row_ch (h : PkgHelpers) (r : Report) :
    ∀ op ∈ [Op.addTable ⟨"A", 5⟩ ⟨"H", 5⟩ h.TableFormat,
       Op.saveAs r.Flags.OutputPath ⟨r.Flags.IndexImage, "channels", "xlsx"⟩],
      op.row? = none := by
  intro op hop
  simp only [List.mem_cons, List.mem_singleton, List.not_mem_nil, or_false] at hop
  rcases hop with rfl | rfl <;> rfl

theorem writeXls_eq_ch (h : PkgHelpers) (dt : String) (order : List (String × String))
    (r : Report) :
    writeXls h dt order r =
      NewFile.run ((headerOps dt r ++ labelOps order) ++ rowsFrom (rowOps h) 0 r.Columns ++
        [Op.addTable ⟨"A", 5⟩ ⟨"H", 5⟩ h.TableFormat,
         Op.saveAs r.Flags.OutputPath ⟨r.Flags.IndexImage, "channels", "xlsx"⟩]) := by
  simp only [writeXls, writeXlsOps, dataOps]

/-- Every cell of data row `k + 6` of the finished workbook is what the loop
body for `r.Columns[k]` makes of an empty cell. -/
theorem writeXls_data_cell_ch (h : PkgHelpers) (dt : String) (order : List (String × String))
    (r : Report) (k : Nat) (v : Column) (hv : r.Columns[k]? = some v) (col : String) :
    ((writeXls h dt order r).value ⟨col, k + 6⟩ =
        (NewFile.run (rowOps h (k + 6) v)).value ⟨col, k + 6⟩) ∧
    ((writeXls h dt order r).style ⟨col, k + 6⟩ =
        (NewFile.run (rowOps h (k + 6) v)).style ⟨col, k + 6⟩) := by
  rw [writeXls_eq_ch]
  exact run_sheet_data_cell (rowOps h) (mem_rowOps_row_ch h) _ _ (mem_preOps_row_ch dt order r)
    (mem_postOps_row_ch h r) r.Columns k v hv col

end Channels

/-! ## Claims on the packages workbook -/

namespace Packages

theorem valid_data_row (col : String) (k : Nat) (hk : k + 6 ≤ TotalRows) :
    (Cell.mk col (k + 6)).valid = true := by
  simp [Cell.valid, hk]

theorem writeXlsOps_eq (h : PkgHelpers) (dt : String) (order : List (String × String))
    (r : Report) :
    writeXlsOps h dt order r =
      (headerOps dt r ++ labelOps order) ++ rowsFrom (rowOps h) 0 r.Columns ++
        (visibilityOps r ++
          [Op.addTable ⟨"A", 5⟩ ⟨"S", 5⟩ h.TableFormat,
           Op.saveAs r.Flags.OutputPath ⟨r.Flags.IndexImage, "packages", "xlsx"⟩]) := by
  simp only [writeXlsOps, dataOps, List.append_assoc]

/-- The calls of `writeXls` on a cell of data row `k + 6` are those of the loop
body for `r.Columns[k]`. -/
theorem cellCalls_writeXlsOps (h : PkgHelpers) (dt : String) (order : List (String × String))
    (r : Report) (k : Nat) (v : Column) (hv : r.Columns[k]? = some v) (col : String) :
    cellCalls (writeXlsOps h dt order r) ⟨col, k + 6⟩ =
      cellCalls (rowOps h (k + 6) v) ⟨col, k + 6⟩ := by
  rw [writeXlsOps_eq]
  exact cellCalls_sheet (rowOps h) (mem_rowOps_row h) _ _ (mem_preOps_row dt order r)
    (mem_postOps_row h r) r.Columns k v hv col

theorem cellCalls_failingTestsOps (h : PkgHelpers) (line : Nat) (v : Column) (col : String) :
    cellCalls (failingTestsOps h line v) ⟨col, line⟩ =
      if col = "F" then failingTestsOps h line v else [] := by
  unfold failingTestsOps
  by_cases hc : col = "F"
  · subst hc
    split <;> simp [Op.cell?]
  · have hne : ¬ "F" = col := fun e => hc e.symm
    split <;> simp [Op.cell?, hc, hne]

/-- C1. In the packages report, for every Column at index `k`, `writeXls`
issues on the validator-errors cell `G(k+6)` the value and then one style, red
when `HasValidatorErrors` and green otherwise, and on the versioning cell
`I(k+6)` the value and then one style, orange when `HasInvalidVersioning` and
green otherwise. When row `k + 6` is within the sheet, these are the styles of
the two cells in the finished workbook, so red on `G` and orange on `I` appear
exactly for a true finding. -/
theorem packages_validator_versioning_styles (h : PkgHelpers) (dt : String)
    (order : List (String × String)) (r : Report) (k : Nat) (v : Column)
    (hv : r.Columns[k]? = some v) :
    cellCalls (writeXlsOps h dt order r) ⟨"G", k + 6⟩ =
      [.setCellValue ⟨"G", k + 6⟩ (.str (h.GetYesOrNo v.HasValidatorErrors)),
       .setCellStyle ⟨"G", k + 6⟩ (if v.HasValidatorErrors then styleRed else styleGreen)] ∧
    cellCalls (writeXlsOps h dt order r) ⟨"I", k + 6⟩ =
      [.setCellValue ⟨"I", k + 6⟩ (.str (h.GetYesOrNo v.HasInvalidVersioning)),
       .setCellStyle ⟨"I", k + 6⟩ (if v.HasInvalidVersioning then styleOrange else styleGreen)] ∧
    (k + 6 ≤ TotalRows →
      (writeXls h dt order r).style ⟨"G", k + 6⟩ =
          some (if v.HasValidatorErrors then styleRed else styleGreen) ∧
      (writeXls h dt order r).style ⟨"I", k + 6⟩ =
          some (if v.HasInvalidVersioning then styleOrange else styleGreen) ∧
      ((writeXls h dt order r).style ⟨"G", k + 6⟩ = some styleRed ↔
          v.HasValidatorErrors = true) ∧
      ((writeXls h dt order r).style ⟨"I", k + 6⟩ = some styleOrange ↔
          v.HasInvalidVersioning = true)) := by
  refine ⟨?_, ?_, fun hk => ?_⟩
  · rw [cellCalls_writeXlsOps h dt order r k v hv]
    simp [rowOps, cellCalls_failingTestsOps, Op.cell?]
  · rw [cellCalls_writeXlsOps h dt order r k v hv]
    simp [rowOps, cellCalls_failingTestsOps, Op.cell?]
  · have hG := (writeXls_data_cell h dt order r k v hv "G").2
    have hI := (writeXls_data_cell h dt order r k v hv "I").2
    have hval := fun col => valid_data_row col k hk
    have eG : (NewFile.run (rowOps h (k + 6) v)).style ⟨"G", k + 6⟩ =
        some (if v.HasValidatorErrors then styleRed else styleGreen) := by
      simp [rowOps, failingTestsOps, hval]
    have eI : (NewFile.run (rowOps h (k + 6) v)).style ⟨"I", k + 6⟩ =
        some (if v.HasInvalidVersioning then styleOrange else styleGreen) := by
      simp [rowOps, failingTestsOps, hval]
    rw [hG, hI, eG, eI]
    refine ⟨rfl, rfl, ?_, ?_⟩
    · cases v.HasValidatorErrors <;> simp [styleRed, styleGreen]
    · cases v.HasInvalidVersioning <;> simp [styleOrange, styleGreen]

/-- Witness for C1 on the sample report: the first row has invalid versioning
and no validator errors, so `I6` is orange and `G6` is green. -/
theorem packages_validator_versioning_styles_witness :
    (writeXls sampleHelpers "2021-06-01" columns sampleReport).style ⟨"G", 6⟩ =
        some styleGreen ∧
    (writeXls sampleHelpers "2021-06-01" columns sampleReport).style ⟨"I", 6⟩ =
        some styleOrange :=
  ⟨((packages_validator_versioning_styles sampleHelpers "2021-06-01" columns sampleReport 0
      sampleColumn rfl).2.2 (by decide)).1,
   ((packages_validator_versioning_styles sampleHelpers "2021-06-01" columns sampleReport 0
      sampleColumn rfl).2.2 (by decide)).2.1⟩

/-- C2, as stated, fails: with the scorecard and the validators both disabled,
column `G` is hidden too, so it is not true of every report with
`DisableScorecard` that exactly `E` and `F` are hidden. -/
theorem both_checks_disabled_counterexample :
    ¬ (∀ r : Report, r.Flags.DisableScorecard = true →
        ∀ c : String, ((writeXls sampleHelpers "2021-06-01" columns r).hidden c = true ↔
          (c = "E" ∨ c = "F"))) := by
  intro H
  have hG : (writeXls sampleHelpers "2021-06-01" columns sampleReportNoChecks).hidden "G"
      = true := by
    rw [writeXls_hidden]; rfl
  have := (H sampleReportNoChecks rfl "G").1 hG
  revert this
  decide

/-- C2, amended. When the scorecard is disabled and the validators are not,
the finished workbook hides exactly the columns `E` and `F`. -/
theorem packages_hidden_columns_scorecard_only (h : PkgHelpers) (dt : String)
    (order : List (String × String)) (r : Report)
    (hs : r.Flags.DisableScorecard = true) (hval : r.Flags.DisableValidators = false)
    (c : String) :
    (writeXls h dt order r).hidden c = true ↔ (c = "E" ∨ c = "F") := by
  rw [writeXls_hidden, hs, hval]
  simp

/-- Witness for the amended C2 on the sample report. -/
theorem packages_hidden_columns_scorecard_only_witness :
    ((writeXls sampleHelpers "2021-06-01" columns sampleReport).hidden "F" = true ↔
        ("F" = "E" ∨ "F" = "F")) ∧
    ((writeXls sampleHelpers "2021-06-01" columns sampleReport).hidden "G" = true ↔
        ("G" = "E" ∨ "G" = "F")) :=
  ⟨packages_hidden_columns_scorecard_only sampleHelpers "2021-06-01" columns sampleReport
      rfl rfl "F",
   packages_hidden_columns_scorecard_only sampleHelpers "2021-06-01" columns sampleReport
      rfl rfl "G"⟩

/-- C8, as stated, fails: the first sample row has `HasScorecardFailingTests`
set and shows its value in `F6`, yet `F6` is green and not red, because the list
`ScorecardFailingTests` is empty. -/
theorem failing_flag_styled_green_counterexample :
    sampleColumn.HasScorecardFailingTests = true ∧
    (writeXls sampleHelpers "2021-06-01" columns sampleReport).value ⟨"F", 6⟩ =
        some (.str (sampleHelpers.GetYesOrNo true)) ∧
    (writeXls sampleHelpers "2021-06-01" columns sampleReport).style ⟨"F", 6⟩ =
        some styleGreen ∧
    ¬ ((writeXls sampleHelpers "2021-06-01" columns sampleReport).style ⟨"F", 6⟩ =
        some styleRed ↔ sampleColumn.HasScorecardFailingTests = true) := by
  have hc := writeXls_data_cell sampleHelpers "2021-06-01" columns sampleReport 0 sampleColumn
    rfl "F"
  have hval := fun col => valid_data_row col 0 (by decide)
  have hv : (NewFile.run (rowOps sampleHelpers (0 + 6) sampleColumn)).value ⟨"F", 0 + 6⟩ =
      some (.str (sampleHelpers.GetYesOrNo true)) := by
    simp [rowOps, failingTestsOps, sampleColumn, hval]
  have hs : (NewFile.run (rowOps sampleHelpers (0 + 6) sampleColumn)).style ⟨"F", 0 + 6⟩ =
      some styleGreen := by
    simp [rowOps, failingTestsOps, sampleColumn, hval]
  refine ⟨rfl, hc.1.trans hv, hc.2.trans hs, ?_⟩
  rw [show (writeXls sampleHelpers "2021-06-01" columns sampleReport).style ⟨"F", 6⟩ =
    some styleGreen from hc.2.trans hs]
  simp [styleGreen, styleRed, sampleColumn]

/-- C8, amended. On the failing-tests cell `F(k+6)` `writeXls` issues the value
`GetYesOrNo(HasScorecardFailingTests)` and a style chosen by the list
`ScorecardFailingTests`: red (after the comment) exactly when the list is
non-empty, green exactly when it is empty. When row `k + 6` is within the
sheet, the finished workbook shows that value and that style, so the style
follows the displayed flag whenever the flag says whether the list is
non-empty. -/
theorem packages_failing_tests_style (h : PkgHelpers) (dt : String)
    (order : List (String × String)) (r : Report) (k : Nat) (v : Column)
    (hv : r.Columns[k]? = some v) :
    cellCalls (writeXlsOps h dt order r) ⟨"F", k + 6⟩ = failingTestsOps h (k + 6) v ∧
    (Op.setCellStyle ⟨"F", k + 6⟩ styleRed ∈ cellCalls (writeXlsOps h dt order r) ⟨"F", k + 6⟩ ↔
        v.ScorecardFailingTests ≠ []) ∧
    (Op.setCellStyle ⟨"F", k + 6⟩ styleGreen ∈
        cellCalls (writeXlsOps h dt order r) ⟨"F", k + 6⟩ ↔ v.ScorecardFailingTests = []) ∧
    (k + 6 ≤ TotalRows →
      (writeXls h dt order r).value ⟨"F", k + 6⟩ =
          some (.str (h.GetYesOrNo v.HasScorecardFailingTests)) ∧
      ((writeXls h dt order r).style ⟨"F", k + 6⟩ = some styleRed ↔
          v.ScorecardFailingTests ≠ []) ∧
      ((writeXls h dt order r).style ⟨"F", k + 6⟩ = some styleGreen ↔
          v.ScorecardFailingTests = []) ∧
      ((v.HasScorecardFailingTests = true ↔ v.ScorecardFailingTests ≠ []) →
        ((writeXls h dt order r).style ⟨"F", k + 6⟩ = some styleRed ↔
          v.HasScorecardFailingTests = true) ∧
        ((writeXls h dt order r).style ⟨"F", k + 6⟩ = some styleGreen ↔
          v.HasScorecardFailingTests = false))) := by
  have hcalls : cellCalls (writeXlsOps h dt order r) ⟨"F", k + 6⟩ =
      failingTestsOps h (k + 6) v := by
    rw [cellCalls_writeXlsOps h dt order r k v hv]
    simp [rowOps, cellCalls_failingTestsOps, Op.cell?]
  have hlen : v.ScorecardFailingTests.length > 0 ↔ v.ScorecardFailingTests ≠ [] :=
    List.length_pos
  refine ⟨hcalls, ?_, ?_, fun hk => ?_⟩
  · rw [hcalls]
    by_cases hne : v.ScorecardFailingTests = []
    · simp [failingTestsOps, hne, styleRed, styleGreen]
    · simp [failingTestsOps, hne, hlen.2 hne]
  · rw [hcalls]
    by_cases hne : v.ScorecardFailingTests = []
    · simp [failingTestsOps, hne]
    · simp [failingTestsOps, hne, hlen.2 hne, styleRed, styleGreen]
  · have hc := writeXls_data_cell h dt order r k v hv "F"
    have hval := fun col => valid_data_row col k hk
    have ev : (NewFile.run (rowOps h (k + 6) v)).value ⟨"F", k + 6⟩ =
        some (.str (h.GetYesOrNo v.HasScorecardFailingTests)) := by
      simp only [rowOps, failingTestsOps]
      split <;> simp [hval]
    have es : (NewFile.run (rowOps h (k + 6) v)).style ⟨"F", k + 6⟩ =
        some (if v.ScorecardFailingTests.length > 0 then styleRed else styleGreen) := by
      simp only [rowOps, failingTestsOps]
      split <;> simp [hval]
    rw [hc.1, hc.2, ev, es]
    by_cases hne : v.ScorecardFailingTests = []
    · simp [hne, styleRed, styleGreen]
    · have hpos : v.ScorecardFailingTests.length > 0 := hlen.2 hne
      simp [hne, hpos, styleRed, styleGreen]

/-- Witness for the amended C8: the second sample row lists a failing test, so
`F7` is red. -/
theorem packages_failing_tests_style_witness :
    (writeXls sampleHelpers "2021-06-01" columns sampleReport).style ⟨"F", 7⟩ = some styleRed ∧
    ((writeXls sampleHelpers "2021-06-01" columns sampleReport).style ⟨"F", 7⟩ = some styleRed ↔
      sampleColumnFailing.HasScorecardFailingTests = true) :=
  ⟨((packages_failing_tests_style sampleHelpers "2021-06-01" columns sampleReport 1
      sampleColumnFailing rfl).2.2.2 (by decide)).2.1.2 (by decide),
   (((packages_failing_tests_style sampleHelpers "2021-06-01" columns sampleReport 1
      sampleColumnFailing rfl).2.2.2 (by decide)).2.2.2 (by decide)).1⟩

end Packages

/-! ## One row per column -/

theorem Packages.rowOps_value_A (h : PkgHelpers) (line : Nat) (v : Packages.Column) :
    (NewFile.run (Packages.rowOps h line v)).value ⟨"A", line⟩ =
      if (Cell.mk "A" line).valid then some (.str v.PackageName) else none := by
  simp only [Packages.rowOps, Packages.failingTestsOps]
  cases hval : (Cell.mk "A" line).valid <;> split <;> simp [hval, NewFile]

theorem Channels.rowOps_value_A_ch (h : PkgHelpers) (line : Nat) (v : Channels.Column) :
    (NewFile.run (Channels.rowOps h line v)).value ⟨"A", line⟩ =
      if (Cell.mk "A" line).valid then some (.str v.PackageName) else none := by
  cases hval : (Cell.mk "A" line).valid <;> simp [Channels.rowOps, hval, NewFile]

theorem Channels.writeXlsOps_eq_ch (h : PkgHelpers) (dt : String)
    (order : List (String × String)) (r : Channels.Report) :
    Channels.writeXlsOps h dt order r =
      (Channels.headerOps dt r ++ labelOps order) ++
        rowsFrom (Channels.rowOps h) 0 r.Columns ++
        [Op.addTable ⟨"A", 5⟩ ⟨"H", 5⟩ h.TableFormat,
         Op.saveAs r.Flags.OutputPath ⟨r.Flags.IndexImage, "channels", "xlsx"⟩] := by
  simp only [Channels.writeXlsOps, Channels.dataOps]

theorem Channels.cellCalls_writeXlsOps_ch (h : PkgHelpers) (dt : String)
    (order : List (String × String)) (r : Channels.Report) (k : Nat) (v : Channels.Column)
    (hv : r.Columns[k]? = some v) (col : String) :
    cellCalls (Channels.writeXlsOps h dt order r) ⟨col, k + 6⟩ =
      cellCalls (Channels.rowOps h (k + 6) v) ⟨col, k + 6⟩ := by
  rw [Channels.writeXlsOps_eq_ch]
  exact cellCalls_sheet (Channels.rowOps h) (Channels.mem_rowOps_row_ch h) _ _
    (Channels.mem_preOps_row_ch dt order r) (Channels.mem_postOps_row_ch h r) r.Columns k v hv col

/-- C7, as stated, fails: a packages report with 1048572 Columns has a Column
at index 1048571, but row 1048577 lies beyond the last row of a sheet, the
library rejects the writes of that pass, and `A1048577` stays empty. -/
theorem row_beyond_sheet_counterexample :
    Packages.bigReport.Columns[1048571]? = some Packages.sampleColumn ∧
    (Packages.writeXls sampleHelpers "2021-06-01" Packages.columns Packages.bigReport).value
      ⟨"A", 1048571 + 6⟩ = none := by
  have hv : Packages.bigReport.Columns[1048571]? = some Packages.sampleColumn := by
    show (List.replicate 1048572 Packages.sampleColumn)[1048571]? = some _
    rw [List.getElem?_replicate, if_pos (by decide)]
  refine ⟨hv, ?_⟩
  rw [(Packages.writeXls_data_cell sampleHelpers "2021-06-01" Packages.columns
    Packages.bigReport 1048571 Packages.sampleColumn hv "A").1, Packages.rowOps_value_A]
  simp [Cell.valid, TotalRows]

/-! ## What the workbook depends on -/

theorem Packages.columns_keys_nodup : (Packages.columns.map Prod.fst).Nodup := by decide

theorem Channels.columns_keys_nodup_ch : (Channels.columns.map Prod.fst).Nodup := by decide

/-- The packages workbook does not depend on the order in which the label map
is ranged. -/
theorem Packages.writeXls_order (h : PkgHelpers) (dt : String)
    (o1 o2 : List (String × String)) (r : Packages.Report)
    (h1 : o1.Perm Packages.columns) (h2 : o2.Perm Packages.columns) :
    Packages.writeXls h dt o1 r = Packages.writeXls h dt o2 r := by
  have hnd : (o1.map Prod.fst).Nodup :=
    (h1.map Prod.fst).nodup_iff.2 Packages.columns_keys_nodup
  simp only [Packages.writeXls, Packages.writeXlsOps, File.run_append]
  rw [run_labelOps_perm (h1.trans h2.symm) hnd]

/-- The channels workbook does not depend on the order in which the label map
is ranged. -/
theorem Channels.writeXls_order_ch (h : PkgHelpers) (dt : String)
    (o1 o2 : List (String × String)) (r : Channels.Report)
    (h1 : o1.Perm Channels.columns) (h2 : o2.Perm Channels.columns) :
    Channels.writeXls h dt o1 r = Channels.writeXls h dt o2 r := by
  have hnd : (o1.map Prod.fst).Nodup :=
    (h1.map Prod.fst).nodup_iff.2 Channels.columns_keys_nodup_ch
  simp only [Channels.writeXls, Channels.writeXlsOps, File.run_append]
  rw [run_labelOps_perm (h1.trans h2.symm) hnd]

/-- The value a sequence of calls leaves in a cell depends only on the value it had. -/
theorem File.run_local_value (c : Cell) (ops : List Op) (f g : File)
    (hv : f.value c = g.value c) : (f.run ops).value c = (g.run ops).value c := by
  induction ops generalizing f g with
  | nil => exact hv
  | cons op ops ih =>
    simp only [File.run_cons]
    apply ih; cases op <;>
      first
        | simp [hv]
        | exact hv

/-- The date of the run reaches the packages workbook through `A1` only. -/
theorem Packages.writeXls_date (h : PkgHelpers) (dt dt2 : String)
    (o : List (String × String)) (r : Packages.Report) (c : Cell) :
    (c ≠ ⟨"A", 1⟩ →
      (Packages.writeXls h dt o r).value c = (Packages.writeXls h dt2 o r).value c) ∧
    (Packages.writeXls h dt o r).style c = (Packages.writeXls h dt2 o r).style c := by
  simp only [Packages.writeXls, Packages.writeXlsOps, Packages.headerOps, List.cons_append,
    File.run_cons]
  refine ⟨fun hc => ?_, ?_⟩
  · apply File.run_local_value
    simp [hc]
  · apply File.run_local_style
    rfl

/-- The date of the run reaches the channels workbook through `A1` only. -/
theorem Channels.writeXls_date_ch (h : PkgHelpers) (dt dt2 : String)
    (o : List (String × String)) (r : Channels.Report) (c : Cell) :
    (c ≠ ⟨"A", 1⟩ →
      (Channels.writeXls h dt o r).value c = (Channels.writeXls h dt2 o r).value c) ∧
    (Channels.writeXls h dt o r).style c = (Channels.writeXls h dt2 o r).style c := by
  simp only [Channels.writeXls, Channels.writeXlsOps, Channels.headerOps, List.cons_append,
    File.run_cons]
  refine ⟨fun hc => ?_, ?_⟩
  · apply File.run_local_value
    simp [hc]
  · apply File.run_local_style
    rfl

/-- C9, as stated, fails: the value of `A1` carries the date of the run, which
is not part of the Report; the same report written on two days gets two
different values in `A1`. -/
theorem workbook_date_counterexample :
    (Packages.writeXls sampleHelpers "2021-06-01" Packages.columns Packages.sampleReport).value
        ⟨"A", 1⟩ ≠
    (Packages.writeXls sampleHelpers "2021-06-02" Packages.columns Packages.sampleReport).value
        ⟨"A", 1⟩ := by
  have e : ∀ dt, (Packages.writeXls sampleHelpers dt Packages.columns
      Packages.sampleReport).value ⟨"A", 1⟩ =
      (NewFile.run (Packages.headerOps dt Packages.sampleReport ++
        labelOps Packages.columns)).value ⟨"A", 1⟩ := by
    intro dt
    rw [Packages.writeXls_eq]
    exact (run_sheet_header (Packages.rowOps sampleHelpers)
      (Packages.mem_rowOps_row sampleHelpers) _ _
      (Packages.mem_postOps_row sampleHelpers Packages.sampleReport) _ "A" 1 (by decide)).1
  have hval : ∀ col, (Cell.mk col 1).valid = true := fun _ => rfl
  rw [e, e]
  simp [Packages.headerOps, labelOps, Packages.columns, hval]

/-- C9, amended. For a given date of the run, the workbook of either report is
determined by the Report: it is the same for every order in which the label
map is ranged. Between two dates only the value of `A1` can differ: every other
cell value and every style decision is the same. -/
theorem writeXls_determined (h : PkgHelpers) (dt dt2 : String)
    (o1 o2 oc1 oc2 : List (String × String)) (r : Packages.Report) (rc : Channels.Report)
    (h1 : o1.Perm Packages.columns) (h2 : o2.Perm Packages.columns)
    (hc1 : oc1.Perm Channels.columns) (hc2 : oc2.Perm Channels.columns) :
    Packages.writeXls h dt o1 r = Packages.writeXls h dt o2 r ∧
    Channels.writeXls h dt oc1 rc = Channels.writeXls h dt oc2 rc ∧
    (∀ c : Cell,
      (c ≠ ⟨"A", 1⟩ →
        (Packages.writeXls h dt o1 r).value c = (Packages.writeXls h dt2 o2 r).value c) ∧
      (Packages.writeXls h dt o1 r).style c = (Packages.writeXls h dt2 o2 r).style c) ∧
    (∀ c : Cell,
      (c ≠ ⟨"A", 1⟩ →
        (Channels.writeXls h dt oc1 rc).value c = (Channels.writeXls h dt2 oc2 rc).value c) ∧
      (Channels.writeXls h dt oc1 rc).style c = (Channels.writeXls h dt2 oc2 rc).style c) := by
  refine ⟨Packages.writeXls_order h dt o1 o2 r h1 h2,
    Channels.writeXls_order_ch h dt oc1 oc2 rc hc1 hc2, fun c => ?_, fun c => ?_⟩
  · rw [Packages.writeXls_order h dt o1 o2 r h1 h2]
    exact Packages.writeXls_date h dt dt2 o2 r c
  · rw [Channels.writeXls_order_ch h dt oc1 oc2 rc hc1 hc2]
    exact Channels.writeXls_date_ch h dt dt2 oc2 rc c

/-- Witness for the amended C9: the sample workbooks are the same when the
label map is ranged backwards, and `B2` is the same on another day. -/
theorem writeXls_determined_witness :
    Packages.writeXls sampleHelpers "2021-06-01" Packages.columns Packages.sampleReport =
      Packages.writeXls sampleHelpers "2021-06-01" Packages.columns.reverse
        Packages.sampleReport ∧
    Channels.writeXls sampleHelpers "2021-06-01" Channels.columns Channels.sampleReport =
      Channels.writeXls sampleHelpers "2021-06-01" Channels.columns.reverse
        Channels.sampleReport ∧
    (Packages.writeXls sampleHelpers "2021-06-01" Packages.columns Packages.sampleReport).value
        ⟨"B", 2⟩ =
      (Packages.writeXls sampleHelpers "2021-06-02" Packages.columns.reverse
        Packages.sampleReport).value ⟨"B", 2⟩ :=
  ⟨(writeXls_determined sampleHelpers "2021-06-01" "2021-06-02" Packages.columns
      Packages.columns.reverse Channels.columns Channels.columns.reverse Packages.sampleReport
      Channels.sampleReport (List.Perm.refl _) (List.reverse_perm _) (List.Perm.refl _)
      (List.reverse_perm _)).1,
   (writeXls_determined sampleHelpers "2021-06-01" "2021-06-02" Packages.columns
      Packages.columns.reverse Channels.columns Channels.columns.reverse Packages.sampleReport
      Channels.sampleReport (List.Perm.refl _) (List.reverse_perm _) (List.Perm.refl _)
      (List.reverse_perm _)).2.1,
   ((writeXls_determined sampleHelpers "2021-06-01" "2021-06-02" Packages.columns
      Packages.columns.reverse Channels.columns Channels.columns.reverse Packages.sampleReport
      Channels.sampleReport (List.Perm.refl _) (List.reverse_perm _) (List.Perm.refl _)
      (List.reverse_perm _)).2.2.1 ⟨"B", 2⟩).1 (by decide)⟩

/-! ## One row per column, within the sheet -/

/-- C7, amended. In both reports the data loop issues one row of calls per
Column: every call of the loop belongs to the pass of some `Columns[k]` and
writes to row `k + 6`, each pass writes only to its row, and `A(k+6)` is
written once, with the `PackageName` of `Columns[k]`. In the finished workbook
every cell of row `k + 6` is as that pass alone sets it, and it holds the
Column when the row is within the sheet (`k + 6` at most `TotalRows`); rows
from `n + 6` on stay empty; rows 1 to 5 are as the header wrote them. -/
theorem one_row_per_column (h : PkgHelpers) (dt : String)
    (order orderC : List (String × String))
    (r : Packages.Report) (rc : Channels.Report)
    (hp : order.Perm Packages.columns) (hpc : orderC.Perm Channels.columns) :
    ((∀ op ∈ Packages.dataOps h 0 r.Columns, ∃ k v, r.Columns[k]? = some v ∧
        op ∈ Packages.rowOps h (k + 6) v ∧ op.row? = some (k + 6)) ∧
     (∀ k v, r.Columns[k]? = some v →
        (∀ op ∈ Packages.rowOps h (k + 6) v,
          op ∈ Packages.dataOps h 0 r.Columns ∧ op.row? = some (k + 6)) ∧
        cellCalls (Packages.writeXlsOps h dt order r) ⟨"A", k + 6⟩ =
          [.setCellValue ⟨"A", k + 6⟩ (.str v.PackageName)] ∧
        (∀ col, (Packages.writeXls h dt order r).value ⟨col, k + 6⟩ =
            (NewFile.run (Packages.rowOps h (k + 6) v)).value ⟨col, k + 6⟩ ∧
          (Packages.writeXls h dt order r).style ⟨col, k + 6⟩ =
            (NewFile.run (Packages.rowOps h (k + 6) v)).style ⟨col, k + 6⟩) ∧
        (k + 6 ≤ TotalRows →
          (Packages.writeXls h dt order r).value ⟨"A", k + 6⟩ = some (.str v.PackageName))) ∧
     (∀ col j, r.Columns.length + 6 ≤ j →
        (Packages.writeXls h dt order r).value ⟨col, j⟩ = none ∧
        (Packages.writeXls h dt order r).style ⟨col, j⟩ = none) ∧
     (∀ col j, j ≤ 5 →
        (Packages.writeXls h dt order r).value ⟨col, j⟩ =
          (NewFile.run (Packages.headerOps dt r ++ labelOps Packages.columns)).value ⟨col, j⟩)) ∧
    ((∀ op ∈ Channels.dataOps h 0 rc.Columns, ∃ k v, rc.Columns[k]? = some v ∧
        op ∈ Channels.rowOps h (k + 6) v ∧ op.row? = some (k + 6)) ∧
     (∀ k v, rc.Columns[k]? = some v →
        (∀ op ∈ Channels.rowOps h (k + 6) v,
          op ∈ Channels.dataOps h 0 rc.Columns ∧ op.row? = some (k + 6)) ∧
        cellCalls (Channels.writeXlsOps h dt orderC rc) ⟨"A", k + 6⟩ =
          [.setCellValue ⟨"A", k + 6⟩ (.str v.PackageName)] ∧
        (∀ col, (Channels.writeXls h dt orderC rc).value ⟨col, k + 6⟩ =
            (NewFile.run (Channels.rowOps h (k + 6) v)).value ⟨col, k + 6⟩ ∧
          (Channels.writeXls h dt orderC rc).style ⟨col, k + 6⟩ =
            (NewFile.run (Channels.rowOps h (k + 6) v)).style ⟨col, k + 6⟩) ∧
        (k + 6 ≤ TotalRows →
          (Channels.writeXls h dt orderC rc).value ⟨"A", k + 6⟩ = some (.str v.PackageName))) ∧
     (∀ col j, rc.Columns.length + 6 ≤ j →
        (Channels.writeXls h dt orderC rc).value ⟨col, j⟩ = none ∧
        (Channels.writeXls h dt orderC rc).style ⟨col, j⟩ = none) ∧
     (∀ col j, j ≤ 5 →
        (Channels.writeXls h dt orderC rc).value ⟨col, j⟩ =
          (NewFile.run (Channels.headerOps dt rc ++ labelOps Channels.columns)).value ⟨col, j⟩)) := by
  refine ⟨⟨?_, ?_, ?_, ?_⟩, ⟨?_, ?_, ?_, ?_⟩⟩
  · intro op hop
    obtain ⟨k, v, h1, h2⟩ := mem_rowsFrom (Packages.rowOps h) r.Columns 0 op hop
    rw [Nat.zero_add] at h2
    exact ⟨k, v, h1, h2, Packages.mem_rowOps_row h _ v op h2⟩
  · intro k v hv
    have hc := Packages.writeXls_data_cell h dt order r k v hv
    refine ⟨fun op hop => ⟨?_, Packages.mem_rowOps_row h _ v op hop⟩, ?_, hc, fun hk => ?_⟩
    · have := mem_rowsFrom_of_mem (Packages.rowOps h) r.Columns 0 k v hv op
      rw [Nat.zero_add] at this
      exact this hop
    · rw [Packages.cellCalls_writeXlsOps h dt order r k v hv]
      simp [Packages.rowOps, Packages.cellCalls_failingTestsOps, Op.cell?]
    · rw [(hc "A").1, Packages.rowOps_value_A, Packages.valid_data_row "A" k hk]
      rfl
  · intro col j hj
    rw [Packages.writeXls_eq]
    exact run_sheet_beyond (Packages.rowOps h) (Packages.mem_rowOps_row h) _ _
      (Packages.mem_preOps_row dt order r) (Packages.mem_postOps_row h r) r.Columns col j hj
  · intro col j hj
    rw [Packages.writeXls_order h dt order Packages.columns r hp (List.Perm.refl _),
      Packages.writeXls_eq]
    exact (run_sheet_header (Packages.rowOps h) (Packages.mem_rowOps_row h) _ _
      (Packages.mem_postOps_row h r) r.Columns col j hj).1
  · intro op hop
    obtain ⟨k, v, h1, h2⟩ := mem_rowsFrom (Channels.rowOps h) rc.Columns 0 op hop
    rw [Nat.zero_add] at h2
    exact ⟨k, v, h1, h2, Channels.mem_rowOps_row_ch h _ v op h2⟩
  · intro k v hv
    have hc := Channels.writeXls_data_cell_ch h dt orderC rc k v hv
    refine ⟨fun op hop => ⟨?_, Channels.mem_rowOps_row_ch h _ v op hop⟩, ?_, hc, fun hk => ?_⟩
    · have := mem_rowsFrom_of_mem (Channels.rowOps h) rc.Columns 0 k v hv op
      rw [Nat.zero_add] at this
      exact this hop
    · rw [Channels.cellCalls_writeXlsOps_ch h dt orderC rc k v hv]
      simp [Channels.rowOps, Op.cell?]
    · rw [(hc "A").1, Channels.rowOps_value_A_ch, Packages.valid_data_row "A" k hk]
      rfl
  · intro col j hj
    rw [Channels.writeXls_eq_ch]
    exact run_sheet_beyond (Channels.rowOps h) (Channels.mem_rowOps_row_ch h) _ _
      (Channels.mem_preOps_row_ch dt orderC rc) (Channels.mem_postOps_row_ch h rc) rc.Columns col j hj
  · intro col j hj
    rw [Channels.writeXls_order_ch h dt orderC Channels.columns rc hpc (List.Perm.refl _),
      Channels.writeXls_eq_ch]
    exact (run_sheet_header (Channels.rowOps h) (Channels.mem_rowOps_row_ch h) _ _
      (Channels.mem_postOps_row_ch h rc) rc.Columns col j hj).1

/-- Witness for the amended C7 on the sample reports: the second package is in
row 7, the second channel row is row 7, row 8 is empty and `B5` is left to the
header. -/
theorem one_row_per_column_witness :
    (Packages.writeXls sampleHelpers "2021-06-01" Packages.columns Packages.sampleReport).value
        ⟨"A", 7⟩ = some (.str "prometheus") ∧
    (Channels.writeXls sampleHelpers "2021-06-01" Channels.columns Channels.sampleReport).value
        ⟨"A", 7⟩ = some (.str "etcd") ∧
    (Packages.writeXls sampleHelpers "2021-06-01" Packages.columns Packages.sampleReport).value
        ⟨"A", 8⟩ = none ∧
    (Channels.writeXls sampleHelpers "2021-06-01" Channels.columns Channels.sampleReport).value
        ⟨"B", 5⟩ =
      (NewFile.run (Channels.headerOps "2021-06-01" Channels.sampleReport ++
        labelOps Channels.columns)).value ⟨"B", 5⟩ :=
  ⟨((one_row_per_column sampleHelpers "2021-06-01" Packages.columns Channels.columns
      Packages.sampleReport Channels.sampleReport (List.Perm.refl _) (List.Perm.refl _)).1.2.1
      1 Packages.sampleColumnFailing rfl).2.2.2 (by decide),
   ((one_row_per_column sampleHelpers "2021-06-01" Packages.columns Channels.columns
      Packages.sampleReport Channels.sampleReport (List.Perm.refl _) (List.Perm.refl _)).2.2.1
      1 _ rfl).2.2.2 (by decide),
   ((one_row_per_column sampleHelpers "2021-06-01" Packages.columns Channels.columns
      Packages.sampleReport Channels.sampleReport (List.Perm.refl _) (List.Perm.refl _)).1.2.2.1
      "A" 8 (by decide)).1,
   (one_row_per_column sampleHelpers "2021-06-01" Packages.columns Channels.columns
      Packages.sampleReport Channels.sampleReport (List.Perm.refl _) (List.Perm.refl _)).2.2.2.2
      "B" 5 (by decide)⟩

/-! ## Report names -/

theorem File.run_saved (ops : List Op) (f : File) :
    (f.run ops).saved = f.saved ++ ops.filterMap Op.saved? := by
  induction ops generalizing f with
  | nil => simp
  | cons op ops ih =>
    rw [File.run_cons, ih]
    cases op with
    | setCellValue d v => cases hd : d.valid <;> simp [File.apply, hd, Op.saved?]
    | setCellStyle d v => cases hd : d.valid <;> simp [File.apply, hd, Op.saved?]
    | addComment d t => simp [File.apply, Op.saved?]
    | setColVisible a b => simp [File.apply, Op.saved?]
    | addTable a b t => simp [File.apply, Op.saved?]
    | saveAs a b => simp [File.apply, Op.saved?]

theorem filterMap_saved_of_row (ops : List Op) (hrow : ∀ op ∈ ops, ∃ j, op.row? = some j) :
    ops.filterMap Op.saved? = [] := by
  rw [List.filterMap_eq_nil_iff]
  intro op hop
  obtain ⟨j, hj⟩ := hrow op hop
  cases op <;> simp [Op.row?] at hj <;> rfl

theorem Packages.writeXls_saved (h : PkgHelpers) (dt : String) (order : List (String × String))
    (r : Packages.Report) :
    (Packages.writeXls h dt order r).saved =
      [(r.Flags.OutputPath, ⟨r.Flags.IndexImage, "packages", "xlsx"⟩)] := by
  have h1 : (Packages.headerOps dt r ++ labelOps order).filterMap Op.saved? = [] :=
    filterMap_saved_of_row _ (fun op hop =>
      (Packages.mem_preOps_row dt order r op hop).imp fun _ hj => hj.2)
  have h2 : (rowsFrom (Packages.rowOps h) 0 r.Columns).filterMap Op.saved? = [] :=
    filterMap_saved_of_row _ (fun op hop =>
      (mem_rowsFrom_row _ (Packages.mem_rowOps_row h) r.Columns 0 op hop).imp
        fun _ hj => hj.2.2)
  have h3 : (Packages.visibilityOps r).filterMap Op.saved? = [] := by
    unfold Packages.visibilityOps
    cases r.Flags.DisableScorecard <;> cases r.Flags.DisableValidators <;> rfl
  rw [Packages.writeXls_eq, File.run_saved]
  simp only [List.filterMap_append, h1, h2, h3]
  rfl

theorem Channels.writeXls_saved_ch (h : PkgHelpers) (dt : String) (order : List (String × String))
    (r : Channels.Report) :
    (Channels.writeXls h dt order r).saved =
      [(r.Flags.OutputPath, ⟨r.Flags.IndexImage, "channels", "xlsx"⟩)] := by
  have h1 : (Channels.headerOps dt r ++ labelOps order).filterMap Op.saved? = [] :=
    filterMap_saved_of_row _ (fun op hop =>
      (Channels.mem_preOps_row_ch dt order r op hop).imp fun _ hj => hj.2)
  have h2 : (rowsFrom (Channels.rowOps h) 0 r.Columns).filterMap Op.saved? = [] :=
    filterMap_saved_of_row _ (fun op hop =>
      (mem_rowsFrom_row _ (Channels.mem_rowOps_row_ch h) r.Columns 0 op hop).imp
        fun _ hj => hj.2.2)
  rw [Channels.writeXls_eq_ch, File.run_saved]
  simp only [List.filterMap_append, h1, h2]
  rfl

/-- C6 on the code. The channels report names both outputs with the tag
`channels`. The packages report saves the workbook under the tag `packages`
but hands `pkg.WriteJSON` the tag `package`: the two tags differ. -/
theorem report_type_tags (h : PkgHelpers) (dt data : String) (order : List (String × String))
    (r : Packages.Report) (rc : Channels.Report) :
    (Packages.writeXls h dt order r).saved =
        [(r.Flags.OutputPath, ⟨r.Flags.IndexImage, "packages", "xlsx"⟩)] ∧
    Packages.writeJSON (fun _ => .ok data) r =
        .ok ⟨data, r.Flags.IndexImage, r.Flags.OutputPath, "package"⟩ ∧
    ("packages" : String) ≠ "package" ∧
    (Channels.writeXls h dt order rc).saved =
        [(rc.Flags.OutputPath, ⟨rc.Flags.IndexImage, "channels", "xlsx"⟩)] ∧
    Channels.writeJSON (fun _ => .ok data) rc =
        .ok ⟨data, rc.Flags.IndexImage, rc.Flags.OutputPath, "channels"⟩ :=
  ⟨Packages.writeXls_saved h dt order r, rfl, by decide,
    Channels.writeXls_saved_ch h dt order rc, rfl⟩

/-! ## Bundle extraction -/

namespace Actions

/-- C3. When the image path is not empty, the bundle is not yet read and
`DownloadImage` fails, `GetDataFromBundleImage` returns: the error list has one
more entry (so it is not empty), `Bundle` is still unset, and the only request
made is the `docker pull`. -/
theorem download_failure_returns (env : Env) (ab : AuditBundle)
    (disableScorecard disableValidators serverMode : Bool) (label labelValue err : String)
    (hpath : 1 ≤ ab.OperatorBundleImagePath.length) (hbundle : ab.Bundle = none)
    (hfail : (DownloadImage env ⟨ab, []⟩ ab.OperatorBundleImagePath).1 = some err) :
    ∃ s, GetDataFromBundleImage env ab disableScorecard disableValidators serverMode label
        labelValue = .returned s ∧
      s.ab.Errors = ab.Errors ++ ["unable to download container image (" ++
        ab.OperatorBundleImagePath ++ "): " ++ err] ∧
      s.ab.Errors ≠ [] ∧
      s.ab.Bundle = none ∧
      s.trace = [.command ["docker", "pull", ab.OperatorBundleImagePath]] := by
  have hlt : ¬ ab.OperatorBundleImagePath.length < 1 := by omega
  simp only [DownloadImage, runCommand] at hfail
  refine ⟨addError ⟨ab, [.command ["docker", "pull", ab.OperatorBundleImagePath]]⟩
    ("unable to download container image (" ++ ab.OperatorBundleImagePath ++ "): " ++ err),
    ?_, ?_⟩
  · simp [GetDataFromBundleImage, hlt, DownloadImage, runCommand, hfail]
  · simp [addError, hbundle]

/-- Witness for C3: the sample bundle in an environment where `docker pull` fails. -/
theorem download_failure_returns_witness :
    ∃ s, GetDataFromBundleImage envPullFails sampleBundle false false false "" "" =
        .returned s ∧
      s.ab.Errors = sampleBundle.Errors ++ ["unable to download container image (" ++
        sampleBundle.OperatorBundleImagePath ++ "): " ++ "exit status 1"] ∧
      s.ab.Errors ≠ [] ∧
      s.ab.Bundle = none ∧
      s.trace = [.command ["docker", "pull", sampleBundle.OperatorBundleImagePath]] :=
  download_failure_returns envPullFails sampleBundle false false false "" "" "exit status 1"
    (by decide) rfl (by decide)

end Actions

namespace Actions

/-- Whenever `manifest.json` is read and `json.Unmarshal` leaves the slice nil
or empty, `extractBundleFromImage` panics at `bundleLayerConfig[0]`, before any
layer is extracted and before the marker files are removed. -/
theorem extractBundleFromImage_panics (env : Env) (s : St) (bundleDir content : String)
    (s3 : St)
    (hs3 : s3 = runCommandOrRecord env
      (runCommandOrRecord env
        (runCommandOrRecord env s
          ["docker", "save", beforeAt s.ab.OperatorBundleImagePath, "-o",
            bundleDir ++ "/" ++ s.ab.OperatorBundleName ++ ".tar"]
          "unable to save the bundle image : ")
        ["tar", "-xvf", bundleDir ++ "/" ++ s.ab.OperatorBundleName ++ ".tar", "-C", bundleDir]
        "unable to untar the bundle image : ")
      ["mkdir", env.Join bundleDir "bundle"] "error to create the bundle bundleDir : ")
    (hread : env.ReadFile s3.trace (env.Join bundleDir "manifest.json") = .ok content)
    (hparse : (env.Unmarshal content).1 = none ∨ (env.Unmarshal content).1 = some []) :
    (extractBundleFromImage env s bundleDir).panics = true := by
  subst hs3
  unfold extractBundleFromImage
  simp only [hread]
  rcases hparse with hp | hp <;> simp only [hp] <;> rfl

/-- C4 on the code. With a `manifest.json` that is not JSON, that is `null`, or
that is the empty list, `extractBundleFromImage` does not complete: it panics at
`bundleLayerConfig[0]`, no `rm` has been issued, and the panic also ends
`GetDataFromBundleImage`. For the empty list no error has been recorded. -/
theorem empty_manifest_panics :
    (extractBundleFromImage (envManifest "not json") ⟨sampleBundle, []⟩ "./tmp/etcd").panics
        = true ∧
    (extractBundleFromImage (envManifest "null") ⟨sampleBundle, []⟩ "./tmp/etcd").panics
        = true ∧
    (extractBundleFromImage (envManifest "[]") ⟨sampleBundle, []⟩ "./tmp/etcd").panics
        = true ∧
    (extractBundleFromImage (envManifest "[]") ⟨sampleBundle, []⟩ "./tmp/etcd").state.ab.Errors
        = [] ∧
    (extractBundleFromImage (envManifest "not json") ⟨sampleBundle, []⟩
        "./tmp/etcd").state.trace =
      [.command ["docker", "save", "quay.io/example/etcd-bundle", "-o", "./tmp/etcd/etcd.tar"],
       .command ["tar", "-xvf", "./tmp/etcd/etcd.tar", "-C", "./tmp/etcd"],
       .command ["mkdir", "tmp/etcd/bundle"],
       .readFile "tmp/etcd/manifest.json"] ∧
    (GetDataFromBundleImage (envManifest "[]") sampleBundle false false false "" "").panics
        = true := by
  refine ⟨?_, ?_, ?_, ?_, ?_, ?_⟩
  · exact extractBundleFromImage_panics _ _ _ "not json" _ rfl rfl (Or.inl (by decide))
  · exact extractBundleFromImage_panics _ _ _ "null" _ rfl rfl (Or.inl (by decide))
  · exact extractBundleFromImage_panics _ _ _ "[]" _ rfl rfl (Or.inr (by decide))
  · decide
  · decide
  · decide

/-- C5 on the code. When every command succeeds but the extracted directory
cannot be read as a bundle, `GetDataFromBundleImage` returns with the working
directory created (`mkdir ./tmp/etcd` was issued) and never issues
`rm -rf ./tmp/etcd`; when the bundle is read, the same run does issue it. -/
theorem unreadable_bundle_skips_cleanup :
    (GetDataFromBundleImage envNoBundle sampleBundle false false false "" "").panics = false ∧
    (GetDataFromBundleImage envNoBundle sampleBundle false false false "" "").state.ab.Errors =
      ["unable to get the bundle: no such file or directory"] ∧
    Event.command ["mkdir", "./tmp/etcd"] ∈
      (GetDataFromBundleImage envNoBundle sampleBundle false false false "" "").state.trace ∧
    Event.command ["rm", "-rf", "./tmp/etcd"] ∉
      (GetDataFromBundleImage envNoBundle sampleBundle false false false "" "").state.trace ∧
    Event.command ["rm", "-rf", "./tmp/etcd"] ∈
      (GetDataFromBundleImage envAllGood sampleBundle false false false "" "").state.trace := by
  refine ⟨?_, ?_, ?_, ?_, ?_⟩ <;> decide

end Actions

/-! ## The requests of the extraction -/

namespace Actions

@[simp] theorem addError_trace (s : St) (msg : String) : (addError s msg).trace = s.trace := rfl

@[simp] theorem addError_errors (s : St) (msg : String) :
    (addError s msg).ab.Errors = s.ab.Errors ++ [msg] := rfl

@[simp] theorem runCommandOrRecord_trace (env : Env) (s : St) (argv : List String)
    (msg : String) :
    (runCommandOrRecord env s argv msg).trace = s.trace ++ [.command argv] := by
  unfold runCommandOrRecord runCommand
  cases env.RunCommand s.trace argv <;> rfl

@[simp] theorem runCommandIgnore_trace (env : Env) (s : St) (argv : List String) :
    (runCommandIgnore env s argv).trace = s.trace ++ [.command argv] := rfl

@[simp] theorem runCommandIgnore_ab (env : Env) (s : St) (argv : List String) :
    (runCommandIgnore env s argv).ab = s.ab := rfl

theorem untarLayers_trace (env : Env) (bundleDir : String) (layers : List String) (s : St) :
    (untarLayers env bundleDir layers s).trace =
      s.trace ++ layers.map (layerEvent env bundleDir) := by
  induction layers generalizing s with
  | nil => simp [untarLayers]
  | cons layer rest ih =>
    simp only [untarLayers, ih, runCommandOrRecord_trace, List.map_cons, List.append_assoc,
      List.singleton_append, layerEvent]

theorem removeMarkers_trace (env : Env) (bundleDir : String) (s : St) :
    (removeMarkers env bundleDir s).trace = s.trace ++ markerEvents bundleDir := by
  simp [removeMarkers, markerEvents]

/-- The requests made when `manifest.json` is about to be read. -/
theorem prepared_trace (env : Env) (s : St) (bundleDir : String) :
    (runCommandOrRecord env
      (runCommandOrRecord env
        (runCommandOrRecord env s
          ["docker", "save", beforeAt s.ab.OperatorBundleImagePath, "-o",
            bundleDir ++ "/" ++ s.ab.OperatorBundleName ++ ".tar"]
          "unable to save the bundle image : ")
        ["tar", "-xvf", bundleDir ++ "/" ++ s.ab.OperatorBundleName ++ ".tar", "-C", bundleDir]
        "unable to untar the bundle image : ")
      ["mkdir", env.Join bundleDir "bundle"] "error to create the bundle bundleDir : ").trace =
    s.trace ++ (prepareEvents env s.ab bundleDir).take 3 := by
  simp [prepareEvents]

/-- With a manifest list that has a first entry, `extractBundleFromImage`
returns after one extraction per layer of that entry. -/
theorem extract_first_manifest (env : Env) (s : St) (bundleDir content : String)
    (m : Manifest) (ms : List Manifest) (uerr : Option String)
    (hread : env.ReadFile (s.trace ++ (prepareEvents env s.ab bundleDir).take 3)
      (env.Join bundleDir "manifest.json") = .ok content)
    (hparse : env.Unmarshal content = (some (m :: ms), uerr)) :
    ∃ t, extractBundleFromImage env s bundleDir = .returned t ∧
      t.trace = s.trace ++ prepareEvents env s.ab bundleDir ++
        m.Layers.map (layerEvent env bundleDir) ++ markerEvents bundleDir := by
  have h3 := prepared_trace env s bundleDir
  unfold extractBundleFromImage
  simp only [h3, hread, hparse]
  refine ⟨_, rfl, ?_⟩
  cases uerr <;>
    simp [removeMarkers_trace, untarLayers_trace, prepareEvents]

/-- When `manifest.json` cannot be read, `extractBundleFromImage` returns after
the one extraction of `layer.tar`. -/
theorem extract_no_manifest (env : Env) (s : St) (bundleDir err : String)
    (hread : env.ReadFile (s.trace ++ (prepareEvents env s.ab bundleDir).take 3)
      (env.Join bundleDir "manifest.json") = .error err) :
    ∃ t, extractBundleFromImage env s bundleDir = .returned t ∧
      t.trace = s.trace ++ prepareEvents env s.ab bundleDir ++
        [.command ["tar", "-xvf", bundleDir ++ "/layer.tar", "-C", env.Join bundleDir "bundle"]]
        ++ markerEvents bundleDir := by
  have h3 := prepared_trace env s bundleDir
  unfold extractBundleFromImage
  simp only [h3, hread]
  refine ⟨_, rfl, ?_⟩
  simp [removeMarkers_trace, prepareEvents]

/-- C12, as stated, fails: a `manifest.json` that lists two manifests
references the layer `c/layer.tar` in its second entry; the function returns
without ever issuing the extraction of that layer. -/
theorem second_manifest_counterexample :
    (envTwoManifests.Unmarshal sampleManifestJSON).1 =
      some [⟨"c.json", ["a/layer.tar", "b/layer.tar"]⟩, ⟨"d.json", ["c/layer.tar"]⟩] ∧
    (extractBundleFromImage envTwoManifests ⟨sampleBundle, []⟩ "./tmp/etcd").panics = false ∧
    Event.command ["tar", "-xvf", "tmp/etcd/a/layer.tar", "-C", "tmp/etcd/bundle"] ∈
      (extractBundleFromImage envTwoManifests ⟨sampleBundle, []⟩ "./tmp/etcd").state.trace ∧
    Event.command ["tar", "-xvf", "tmp/etcd/c/layer.tar", "-C", "tmp/etcd/bundle"] ∉
      (extractBundleFromImage envTwoManifests ⟨sampleBundle, []⟩ "./tmp/etcd").state.trace := by
  refine ⟨?_, ?_, ?_, ?_⟩ <;> decide

/-- C12, amended. When `manifest.json` parses to a non-empty list,
`extractBundleFromImage` returns having issued, between reading the manifest
and the final `rm -rf` commands, exactly one
`tar -xvf Join(bundleDir, layer) -C Join(bundleDir, "bundle")` per layer of the
first manifest of the list, in the listed order, whatever the commands answer
(a failed layer does not stop the loop); layers of further manifests are not
extracted. When `manifest.json` cannot be read it issues exactly one
extraction there, of `bundleDir/layer.tar`. -/
theorem extracts_layers_of_first_manifest (env : Env) (s : St) (bundleDir : String) :
    (∀ content m ms uerr,
      env.ReadFile (s.trace ++ (prepareEvents env s.ab bundleDir).take 3)
        (env.Join bundleDir "manifest.json") = .ok content →
      env.Unmarshal content = (some (m :: ms), uerr) →
      ∃ t, extractBundleFromImage env s bundleDir = .returned t ∧
        t.trace = s.trace ++ prepareEvents env s.ab bundleDir ++
          m.Layers.map (fun layer => Event.command
            ["tar", "-xvf", env.Join bundleDir layer, "-C", env.Join bundleDir "bundle"]) ++
          markerEvents bundleDir) ∧
    (∀ err,
      env.ReadFile (s.trace ++ (prepareEvents env s.ab bundleDir).take 3)
        (env.Join bundleDir "manifest.json") = .error err →
      ∃ t, extractBundleFromImage env s bundleDir = .returned t ∧
        t.trace = s.trace ++ prepareEvents env s.ab bundleDir ++
          [Event.command
            ["tar", "-xvf", bundleDir ++ "/layer.tar", "-C", env.Join bundleDir "bundle"]] ++
          markerEvents bundleDir) :=
  ⟨fun content m ms uerr hread hparse =>
      extract_first_manifest env s bundleDir content m ms uerr hread hparse,
   fun err hread => extract_no_manifest env s bundleDir err hread⟩

/-- Witness for the amended C12: the sample manifest with two layers, and an
environment without `manifest.json` in which the single extraction fails. -/
theorem extracts_layers_of_first_manifest_witness :
    (∃ t, extractBundleFromImage envAllGood ⟨sampleBundle, []⟩ "./tmp/etcd" = .returned t ∧
      t.trace = [] ++ prepareEvents envAllGood sampleBundle "./tmp/etcd" ++
        ["a/layer.tar", "b/layer.tar"].map (fun layer => Event.command
          ["tar", "-xvf", envAllGood.Join "./tmp/etcd" layer, "-C",
            envAllGood.Join "./tmp/etcd" "bundle"]) ++
        markerEvents "./tmp/etcd") ∧
    (∃ t, extractBundleFromImage envNoManifest ⟨sampleBundle, []⟩ "./tmp/etcd" = .returned t ∧
      t.trace = [] ++ prepareEvents envNoManifest sampleBundle "./tmp/etcd" ++
        [Event.command ["tar", "-xvf", "./tmp/etcd" ++ "/layer.tar", "-C",
          envNoManifest.Join "./tmp/etcd" "bundle"]] ++
        markerEvents "./tmp/etcd") :=
  ⟨(extracts_layers_of_first_manifest envAllGood ⟨sampleBundle, []⟩ "./tmp/etcd").1
      sampleManifestJSON ⟨"c.json", ["a/layer.tar", "b/layer.tar"]⟩ [] none rfl (by decide),
   (extracts_layers_of_first_manifest envNoManifest ⟨sampleBundle, []⟩ "./tmp/etcd").2
      "no such file or directory" rfl⟩

end Actions

/-! ## The files after the extraction -/

namespace Actions

theorem fsReplay_append (env : Env) (archive : Path → List Path) (a b : List Event)
    (done : List Event) (fs : FS) :
    fsReplay env archive done (a ++ b) fs =
      fsReplay env archive (done ++ a) b (fsReplay env archive done a fs) := by
  induction a generalizing done fs with
  | nil => simp [fsReplay]
  | cons e rest ih =>
    cases e <;> simp [fsReplay, ih, List.append_assoc]

/-- When every command succeeds, the three final commands remove the two
opaque markers and the `root` subtree and nothing else. -/
theorem fsReplay_markerEvents (env : Env) (archive : Path → List Path)
    (hok : ∀ tr argv, env.RunCommand tr argv = none)
    (done : List Event) (bundleDir : String) (fs : FS) (q : Path) :
    q ∈ fsReplay env archive done (markerEvents bundleDir) fs ↔
      (q ∈ fs ∧
       under (resolve (bundleDir ++ "/bundle/manifests/.wh..wh..opq")) q = false ∧
       under (resolve (bundleDir ++ "/bundle/metadata/.wh..wh..opq")) q = false ∧
       under (resolve (bundleDir ++ "/bundle/root/")) q = false) := by
  simp only [markerEvents, fsReplay, hok, Option.isNone_none, if_true, fsCommand, and_self,
    List.mem_filter, Bool.not_eq_true', and_assoc]

/-- A call of `extractBundleFromImage` that returns has ended with `removeMarkers`. -/
theorem extract_returned (env : Env) (s t : St) (bundleDir : String)
    (hret : extractBundleFromImage env s bundleDir = .returned t) :
    ∃ u, t = removeMarkers env bundleDir u := by
  unfold extractBundleFromImage at hret
  dsimp only at hret
  split at hret
  · split at hret
    · exact ⟨_, (Outcome.returned.inj hret).symm⟩
    · cases hret
  · exact ⟨_, (Outcome.returned.inj hret).symm⟩

/-- C11, as stated, fails: every extraction command of the sample image
succeeds and `extractBundleFromImage` returns, yet the bundle directory still
holds the whiteout files `manifests/.wh.old.crd.yaml` and `tests/.wh..wh..opq`
that the second layer contained. -/
theorem leftover_whiteout_counterexample :
    (extractBundleFromImage envAllGood ⟨sampleBundle, []⟩ "./tmp/etcd").panics = false ∧
    ["tmp", "etcd", "bundle", "manifests", ".wh.old.crd.yaml"] ∈
      fsReplay envAllGood sampleArchive []
        (extractBundleFromImage envAllGood ⟨sampleBundle, []⟩ "./tmp/etcd").state.trace [] ∧
    ["tmp", "etcd", "bundle", "tests", ".wh..wh..opq"] ∈
      fsReplay envAllGood sampleArchive []
        (extractBundleFromImage envAllGood ⟨sampleBundle, []⟩ "./tmp/etcd").state.trace [] ∧
    under (resolve "./tmp/etcd/bundle")
      ["tmp", "etcd", "bundle", "manifests", ".wh.old.crd.yaml"] = true ∧
    isWhiteout ["tmp", "etcd", "bundle", "manifests", ".wh.old.crd.yaml"] = true ∧
    isWhiteout ["tmp", "etcd", "bundle", "tests", ".wh..wh..opq"] = true := by
  refine ⟨?_, ?_, ?_, ?_, ?_, ?_⟩ <;> decide

/-- When every command succeeds, the files after the extraction of the layers
are the files before it and every member of every layer, put below the
`bundle` directory. -/
theorem mem_fsReplay_layers (env : Env) (archive : Path → List Path)
    (hok : ∀ tr argv, env.RunCommand tr argv = none)
    (bundleDir : String) (layers : List String) (done : List Event) (fs : FS) (q : Path) :
    q ∈ fsReplay env archive done (layers.map (layerEvent env bundleDir)) fs ↔
      (q ∈ fs ∨ ∃ layer ∈ layers, ∃ p ∈ archive (resolve (env.Join bundleDir layer)),
        q = resolve (env.Join bundleDir "bundle") ++ p) := by
  induction layers generalizing done fs with
  | nil => simp [fsReplay]
  | cons layer rest ih =>
    simp only [List.map_cons, layerEvent, fsReplay, hok, Option.isNone_none, if_true]
    have ih1 := ih (done ++ [layerEvent env bundleDir layer])
      (fsCommand archive fs
        ["tar", "-xvf", env.Join bundleDir layer, "-C", env.Join bundleDir "bundle"])
    simp only [layerEvent] at ih1
    rw [ih1]
    simp only [fsCommand, and_self, if_true, List.mem_append, List.mem_map, List.mem_cons,
      exists_eq_or_imp]
    constructor
    · rintro ((hq | ⟨p, hp, rfl⟩) | hrest)
      · exact Or.inl hq
      · exact Or.inr (Or.inl ⟨p, hp, rfl⟩)
      · exact Or.inr (Or.inr hrest)
    · rintro (hq | ⟨p, hp, rfl⟩ | hrest)
      · exact Or.inl (Or.inl hq)
      · exact Or.inl (Or.inr ⟨p, hp, rfl⟩)
      · exact Or.inr hrest

/-- C11, amended. When every command succeeds, `extractBundleFromImage` returns
and the files left are: the files present once the image is saved, untarred
and the `bundle` directory made, and every member of every extracted layer
(the layers of the first manifest, or `layer.tar` when there is no manifest),
put below the `bundle` directory; except
`bundleDir/bundle/manifests/.wh..wh..opq`,
`bundleDir/bundle/metadata/.wh..wh..opq` and everything under
`bundleDir/bundle/root/`, which are gone. Every other path the layers
contained, whiteout files included, is therefore still there. -/
theorem only_fixed_markers_removed (env : Env) (archive : Path → List Path) (fs0 : FS)
    (s : St) (bundleDir : String)
    (hok : ∀ tr argv, env.RunCommand tr argv = none) :
    (∀ content m ms uerr,
      env.ReadFile (s.trace ++ (prepareEvents env s.ab bundleDir).take 3)
        (env.Join bundleDir "manifest.json") = .ok content →
      env.Unmarshal content = (some (m :: ms), uerr) →
      ∃ t, extractBundleFromImage env s bundleDir = .returned t ∧
        ∀ q, q ∈ fsReplay env archive [] t.trace fs0 ↔
          ((q ∈ fsReplay env archive [] (s.trace ++ prepareEvents env s.ab bundleDir) fs0 ∨
            ∃ layer ∈ m.Layers, ∃ p ∈ archive (resolve (env.Join bundleDir layer)),
              q = resolve (env.Join bundleDir "bundle") ++ p) ∧
           under (resolve (bundleDir ++ "/bundle/manifests/.wh..wh..opq")) q = false ∧
           under (resolve (bundleDir ++ "/bundle/metadata/.wh..wh..opq")) q = false ∧
           under (resolve (bundleDir ++ "/bundle/root/")) q = false)) ∧
    (∀ err,
      env.ReadFile (s.trace ++ (prepareEvents env s.ab bundleDir).take 3)
        (env.Join bundleDir "manifest.json") = .error err →
      ∃ t, extractBundleFromImage env s bundleDir = .returned t ∧
        ∀ q, q ∈ fsReplay env archive [] t.trace fs0 ↔
          ((q ∈ fsReplay env archive [] (s.trace ++ prepareEvents env s.ab bundleDir) fs0 ∨
            ∃ p ∈ archive (resolve (bundleDir ++ "/layer.tar")),
              q = resolve (env.Join bundleDir "bundle") ++ p) ∧
           under (resolve (bundleDir ++ "/bundle/manifests/.wh..wh..opq")) q = false ∧
           under (resolve (bundleDir ++ "/bundle/metadata/.wh..wh..opq")) q = false ∧
           under (resolve (bundleDir ++ "/bundle/root/")) q = false)) := by
  refine ⟨fun content m ms uerr hread hparse => ?_, fun err hread => ?_⟩
  · obtain ⟨t, ht, htr⟩ := extract_first_manifest env s bundleDir content m ms uerr hread hparse
    refine ⟨t, ht, fun q => ?_⟩
    rw [htr, fsReplay_append, fsReplay_markerEvents env archive hok, fsReplay_append,
      mem_fsReplay_layers env archive hok]
  · obtain ⟨t, ht, htr⟩ := extract_no_manifest env s bundleDir err hread
    refine ⟨t, ht, fun q => ?_⟩
    rw [htr, fsReplay_append, fsReplay_markerEvents env archive hok, fsReplay_append]
    simp only [fsReplay, hok, Option.isNone_none, if_true, fsCommand, and_self,
      List.mem_append, List.mem_map]
    have e : (∃ a ∈ archive (resolve (bundleDir ++ "/layer.tar")),
        resolve (env.Join bundleDir "bundle") ++ a = q) ↔
        ∃ p ∈ archive (resolve (bundleDir ++ "/layer.tar")),
          q = resolve (env.Join bundleDir "bundle") ++ p :=
      ⟨fun ⟨a, ha, he⟩ => ⟨a, ha, he.symm⟩, fun ⟨a, ha, he⟩ => ⟨a, ha, he.symm⟩⟩
    rw [e]

/-- Witness for the amended C11 on the sample image, whose manifest lists the
layers `a/layer.tar` and `b/layer.tar`. -/
theorem only_fixed_markers_removed_witness :
    ∃ t, extractBundleFromImage envAllGood ⟨sampleBundle, []⟩ "./tmp/etcd" = .returned t ∧
      ∀ q, q ∈ fsReplay envAllGood sampleArchive [] t.trace [] ↔
        ((q ∈ fsReplay envAllGood sampleArchive []
            ([] ++ prepareEvents envAllGood sampleBundle "./tmp/etcd") [] ∨
          ∃ layer ∈ ["a/layer.tar", "b/layer.tar"],
            ∃ p ∈ sampleArchive (resolve (envAllGood.Join "./tmp/etcd" layer)),
              q = resolve (envAllGood.Join "./tmp/etcd" "bundle") ++ p) ∧
         under (resolve ("./tmp/etcd" ++ "/bundle/manifests/.wh..wh..opq")) q = false ∧
         under (resolve ("./tmp/etcd" ++ "/bundle/metadata/.wh..wh..opq")) q = false ∧
         under (resolve ("./tmp/etcd" ++ "/bundle/root/")) q = false) :=
  (only_fixed_markers_removed envAllGood sampleArchive [] ⟨sampleBundle, []⟩ "./tmp/etcd"
    (fun _ _ => rfl)).1 sampleManifestJSON ⟨"c.json", ["a/layer.tar", "b/layer.tar"]⟩ [] none
    rfl (by decide)

end Actions

/-! ## The error list only grows -/

namespace Actions

theorem ErrorsKept.init (env : Env) (ab : AuditBundle) : ErrorsKept env ab.Errors ⟨ab, []⟩ :=
  ⟨List.prefix_rfl, fun pre argv post h => by simp at h⟩

/-- A step that keeps the requests and only appends errors. -/
theorem ErrorsKept.same_trace {env : Env} {errs : List String} {s u : St}
    (h : ErrorsKept env errs s) (htr : u.trace = s.trace)
    (hpre : s.ab.Errors <+: u.ab.Errors) : ErrorsKept env errs u := by
  refine ⟨h.1.trans hpre, fun pre argv post hd hrec hfail => ?_⟩
  rw [htr] at hd
  exact lt_of_lt_of_le (h.2 pre argv post hd hrec hfail) hpre.length_le

/-- A step that makes one more request and only appends errors, at least one
when the request is a recorded command that fails. -/
theorem ErrorsKept.step {env : Env} {errs : List String} {s u : St} {e : Event}
    (h : ErrorsKept env errs s) (htr : u.trace = s.trace ++ [e])
    (hpre : s.ab.Errors <+: u.ab.Errors)
    (hfail : ∀ argv, e = .command argv → recorded argv = true →
      env.RunCommand s.trace argv ≠ none → s.ab.Errors.length < u.ab.Errors.length) :
    ErrorsKept env errs u := by
  refine ⟨h.1.trans hpre, fun pre argv post hd hrec hf => ?_⟩
  rw [htr] at hd
  rcases List.eq_nil_or_concat post with hp | ⟨post1, x, hp⟩
  · subst hp
    have hd1 : s.trace ++ [e] = pre ++ [Event.command argv] := hd
    obtain ⟨e1, e2⟩ := List.append_inj' hd1 rfl
    subst e1
    have e3 : e = Event.command argv := by simpa using e2
    exact lt_of_le_of_lt h.1.length_le (hfail argv e3 hrec hf)
  · subst hp
    have hd1 : s.trace ++ [e] = (pre ++ Event.command argv :: post1) ++ [x] := by
      rw [hd]; simp
    obtain ⟨e1, _⟩ := List.append_inj' hd1 rfl
    exact lt_of_lt_of_le (h.2 pre argv post1 e1 hrec hf) hpre.length_le

theorem ErrorsKept.addError {env : Env} {errs : List String} {s : St}
    (h : ErrorsKept env errs s) (msg : String) : ErrorsKept env errs (addError s msg) :=
  h.same_trace rfl (List.prefix_append _ _)

theorem ErrorsKept.runCommandOrRecord {env : Env} {errs : List String} {s : St}
    (h : ErrorsKept env errs s) (argv : List String) (msg : String) :
    ErrorsKept env errs (runCommandOrRecord env s argv msg) := by
  refine h.step (runCommandOrRecord_trace env s argv msg) ?_ ?_
  · unfold Actions.runCommandOrRecord runCommand
    cases env.RunCommand s.trace argv
    · exact List.prefix_rfl
    · exact List.prefix_append _ _
  · intro a ha _ hf
    cases ha
    unfold Actions.runCommandOrRecord runCommand
    cases hr : env.RunCommand s.trace argv with
    | none => exact absurd hr hf
    | some err => simp [Actions.addError]

theorem ErrorsKept.runCommandIgnore {env : Env} {errs : List String} {s : St}
    (h : ErrorsKept env errs s) (argv : List String) (hrec : recorded argv = false) :
    ErrorsKept env errs (runCommandIgnore env s argv) := by
  refine h.step (runCommandIgnore_trace env s argv) List.prefix_rfl ?_
  intro a ha hr _
  cases ha
  rw [hrec] at hr
  cases hr

theorem ErrorsKept.untarLayers {env : Env} {errs : List String} (bundleDir : String)
    (layers : List String) {s : St} (h : ErrorsKept env errs s) :
    ErrorsKept env errs (untarLayers env bundleDir layers s) := by
  induction layers generalizing s with
  | nil => exact h
  | cons layer rest ih => exact ih (h.runCommandOrRecord _ _)

theorem ErrorsKept.removeMarkers {env : Env} {errs : List String} (bundleDir : String)
    {s : St} (h : ErrorsKept env errs s) :
    ErrorsKept env errs (removeMarkers env bundleDir s) := by
  have r : ∀ p, recorded ["rm", "-rf", p] = false := fun _ => by simp [recorded]
  unfold Actions.removeMarkers
  exact ((h.runCommandIgnore _ (r _)).runCommandIgnore _ (r _)).runCommandIgnore _ (r _)

theorem ErrorsKept.extractBundleFromImage {env : Env} {errs : List String} {s : St}
    (h : ErrorsKept env errs s) (bundleDir : String) :
    ErrorsKept env errs (extractBundleFromImage env s bundleDir).state := by
  have h3 := ((h.runCommandOrRecord
      ["docker", "save", beforeAt s.ab.OperatorBundleImagePath, "-o",
        bundleDir ++ "/" ++ s.ab.OperatorBundleName ++ ".tar"]
      "unable to save the bundle image : ").runCommandOrRecord
      ["tar", "-xvf", bundleDir ++ "/" ++ s.ab.OperatorBundleName ++ ".tar", "-C", bundleDir]
      "unable to untar the bundle image : ").runCommandOrRecord
      ["mkdir", env.Join bundleDir "bundle"] "error to create the bundle bundleDir : "
  have h4 : ErrorsKept env errs
      (St.mk _ (_ ++ [Event.readFile (env.Join bundleDir "manifest.json")])) :=
    h3.step rfl List.prefix_rfl (fun a ha => by cases ha)
  unfold Actions.extractBundleFromImage
  simp only []
  split
  · rename_i content _
    generalize (env.Unmarshal content).1 = cfg
    generalize (env.Unmarshal content).2 = uerr
    rcases cfg with _ | ⟨_ | ⟨m, ms⟩⟩ <;> cases uerr <;> simp only [Outcome.state]
    · exact h4.addError _
    · exact (h4.addError _).addError _
    · exact h4
    · exact h4.addError _
    · exact (h4.untarLayers bundleDir m.Layers).removeMarkers bundleDir
    · exact ((h4.addError _).untarLayers bundleDir m.Layers).removeMarkers bundleDir
  · exact (h4.runCommandOrRecord _ _).removeMarkers bundleDir

/-- A request that is not a command, with a bundle whose errors were only
appended to. -/
theorem ErrorsKept.event {env : Env} {errs : List String} {s : St}
    (h : ErrorsKept env errs s) (e : Event) (hne : ∀ argv, e ≠ .command argv)
    (ab : AuditBundle) (hpre : s.ab.Errors <+: ab.Errors) :
    ErrorsKept env errs ⟨ab, s.trace ++ [e]⟩ :=
  h.step rfl hpre (fun a ha => absurd ha (hne a))

theorem applyInspect_errors (ab : AuditBundle) (m : DockerInspectManifest)
    (label labelValue : String) : (applyInspect ab m label labelValue).Errors = ab.Errors := by
  unfold applyInspect
  simp only []
  split_ifs <;> rfl

theorem ErrorsKept.cleanupBundleDir {env : Env} {errs : List String} {s : St}
    (h : ErrorsKept env errs s) (dir : String) (serverMode : Bool) :
    ErrorsKept env errs (cleanupBundleDir env s dir serverMode) := by
  have r1 : recorded ["rm", "-rf", dir] = false := by simp [recorded]
  have r2 : ∀ p, recorded ["docker", "rmi", p] = false := fun _ => by simp [recorded]
  unfold Actions.cleanupBundleDir
  cases serverMode
  · exact (h.runCommandIgnore _ r1).runCommandIgnore _ (r2 _)
  · exact h.runCommandIgnore _ r1

theorem ErrorsKept.afterExtract {env : Env} {errs : List String} {s : St}
    (h : ErrorsKept env errs s)
    (hsc : ∀ tr d ab, ab.Errors <+: (env.RunScorecard tr d ab).Errors)
    (hval : ∀ tr ab, ab.Errors <+: (env.RunValidators tr ab).Errors)
    (bundleDir : String) (disableScorecard disableValidators serverMode : Bool)
    (label labelValue : String) :
    ErrorsKept env errs (afterExtract env s bundleDir disableScorecard disableValidators
      serverMode label labelValue) := by
  have e1 := h.event (.dockerInspect s.ab.OperatorBundleImagePath)
    (fun a ha => by cases ha) s.ab List.prefix_rfl
  have h2a := fun (a : String) => e1.addError a
  have h2b := fun (m : DockerInspectManifest) =>
    h.event (.dockerInspect s.ab.OperatorBundleImagePath) (fun a ha => by cases ha)
      (applyInspect s.ab m label labelValue) (by rw [applyInspect_errors])
  have hget : ∀ {u : St}, ErrorsKept env errs u → ∀ b : Option Bundle,
      ErrorsKept env errs
        ⟨{ u.ab with Bundle := b },
          u.trace ++ [.getBundleFromDir (env.Join bundleDir "bundle")]⟩ :=
    fun hu b => hu.event _ (fun a ha => by cases ha) _ List.prefix_rfl
  have hscore : ∀ {u : St}, ErrorsKept env errs u →
      ErrorsKept env errs
        ⟨env.RunScorecard u.trace (env.Join bundleDir "bundle") u.ab,
          u.trace ++ [.runScorecard (env.Join bundleDir "bundle")]⟩ :=
    fun hu => hu.event _ (fun a ha => by cases ha) _ (hsc _ _ _)
  have hvalid : ∀ {u : St}, ErrorsKept env errs u →
      ErrorsKept env errs ⟨env.RunValidators u.trace u.ab, u.trace ++ [.runValidators]⟩ :=
    fun hu => hu.event _ (fun a ha => by cases ha) _ (hval _ _)
  unfold Actions.afterExtract
  simp only []
  generalize env.RunDockerInspect s.trace s.ab.OperatorBundleImagePath = insp
  cases insp with
  | error a =>
    simp only []
    split
    · exact (hget (h2a a) _).addError _
    · cases disableScorecard <;> cases disableValidators <;>
        simp only [Bool.not_true, Bool.not_false, if_true, if_false, Bool.false_eq_true]
      · exact (hvalid (hscore (hget (h2a a) _))).cleanupBundleDir _ _
      · exact (hscore (hget (h2a a) _)).cleanupBundleDir _ _
      · exact (hvalid (hget (h2a a) _)).cleanupBundleDir _ _
      · exact (hget (h2a a) _).cleanupBundleDir _ _
  | ok m =>
    simp only []
    split
    · exact (hget (h2b m) _).addError _
    · cases disableScorecard <;> cases disableValidators <;>
        simp only [Bool.not_true, Bool.not_false, if_true, if_false, Bool.false_eq_true]
      · exact (hvalid (hscore (hget (h2b m) _))).cleanupBundleDir _ _
      · exact (hscore (hget (h2b m) _)).cleanupBundleDir _ _
      · exact (hvalid (hget (h2b m) _)).cleanupBundleDir _ _
      · exact (hget (h2b m) _).cleanupBundleDir _ _

theorem ErrorsKept.GetDataFromBundleImage (env : Env) (ab : AuditBundle)
    (hsc : ∀ tr d b, b.Errors <+: (env.RunScorecard tr d b).Errors)
    (hval : ∀ tr b, b.Errors <+: (env.RunValidators tr b).Errors)
    (disableScorecard disableValidators serverMode : Bool) (label labelValue : String) :
    ErrorsKept env ab.Errors
      (GetDataFromBundleImage env ab disableScorecard disableValidators serverMode label
        labelValue).state := by
  have h0 := ErrorsKept.init env ab
  unfold Actions.GetDataFromBundleImage
  simp only []
  split
  · exact h0.addError _
  · unfold Actions.DownloadImage Actions.runCommand
    simp only [List.nil_append]
    cases hpull : env.RunCommand [] ["docker", "pull", ab.OperatorBundleImagePath] with
    | some err =>
      simp only [Outcome.state]
      refine h0.step (e := .command ["docker", "pull", ab.OperatorBundleImagePath]) rfl
        (List.prefix_append _ _) (fun _ _ _ _ => ?_)
      simp [Actions.addError]
    | none =>
      simp only []
      have h1 : ErrorsKept env ab.Errors
          ⟨ab, [.command ["docker", "pull", ab.OperatorBundleImagePath]]⟩ :=
        h0.step (e := .command ["docker", "pull", ab.OperatorBundleImagePath]) rfl
          List.prefix_rfl (fun a ha _ hf => by cases ha; exact absurd hpull hf)
      have h2 := h1.runCommandOrRecord ["mkdir", "./tmp/" ++ ab.OperatorBundleName]
        "unable to create the dir for the bundle: "
      have h3 := h2.extractBundleFromImage ("./tmp/" ++ ab.OperatorBundleName)
      unfold Actions.createBundleDir
      simp only []
      revert h3
      generalize Actions.extractBundleFromImage env _ ("./tmp/" ++ ab.OperatorBundleName) = o
      cases o with
      | panicked t => exact fun h3 => h3
      | returned t =>
        exact fun h3 => h3.afterExtract hsc hval _ _ _ _ _ _

/-- C13. `GetDataFromBundleImage`, with `createBundleDir` and
`extractBundleFromImage`, only appends to `Errors`, given that the two stages
it hands the bundle to (`RunScorecard`, `RunValidators`) only append as well:
whatever the commands answer, the list at the end of the call has the list of
the input as a prefix. It is strictly longer when the image path is empty,
when the download fails, and when any command that was issued and is not an
`rm` or a `docker rmi` has failed: every `mkdir`, `docker save` and `tar`
(untar of the image, extraction of a layer) is such a command. -/
theorem errors_only_appended (env : Env) (ab : AuditBundle)
    (disableScorecard disableValidators serverMode : Bool) (label labelValue : String)
    (hsc : ∀ tr d b, b.Errors <+: (env.RunScorecard tr d b).Errors)
    (hval : ∀ tr b, b.Errors <+: (env.RunValidators tr b).Errors) :
    ab.Errors <+: (GetDataFromBundleImage env ab disableScorecard disableValidators serverMode
      label labelValue).state.ab.Errors ∧
    (ab.OperatorBundleImagePath.length < 1 →
      ab.Errors.length < (GetDataFromBundleImage env ab disableScorecard disableValidators
        serverMode label labelValue).state.ab.Errors.length) ∧
    (1 ≤ ab.OperatorBundleImagePath.length →
      (DownloadImage env ⟨ab, []⟩ ab.OperatorBundleImagePath).1 ≠ none →
      ab.Errors.length < (GetDataFromBundleImage env ab disableScorecard disableValidators
        serverMode label labelValue).state.ab.Errors.length) ∧
    (∀ pre argv post,
      (GetDataFromBundleImage env ab disableScorecard disableValidators serverMode label
        labelValue).state.trace = pre ++ Event.command argv :: post →
      recorded argv = true → env.RunCommand pre argv ≠ none →
      ab.Errors.length < (GetDataFromBundleImage env ab disableScorecard disableValidators
        serverMode label labelValue).state.ab.Errors.length) ∧
    (∀ rest, recorded ("mkdir" :: rest) = true ∧ recorded ("tar" :: rest) = true ∧
      recorded ("docker" :: "save" :: rest) = true ∧
      recorded ("docker" :: "pull" :: rest) = true) := by
  have hk := ErrorsKept.GetDataFromBundleImage env ab hsc hval disableScorecard
    disableValidators serverMode label labelValue
  refine ⟨hk.1, fun hempty => ?_, fun hpath hfail => ?_, hk.2, fun rest => ?_⟩
  · simp [GetDataFromBundleImage, hempty, Outcome.state]
  · have hlt : ¬ ab.OperatorBundleImagePath.length < 1 := by omega
    simp only [DownloadImage, runCommand] at hfail
    cases hpull : env.RunCommand [] ["docker", "pull", ab.OperatorBundleImagePath] with
    | none => exact absurd (by simpa using hpull) hfail
    | some err =>
      simp [GetDataFromBundleImage, hlt, DownloadImage, runCommand, hpull, Outcome.state]
  · simp [recorded]

/-- Witness for C13: in the sample environment where `docker save` fails, the
error list of the sample bundle is kept as a prefix and has grown. -/
theorem errors_only_appended_witness :
    sampleBundle.Errors <+:
      (GetDataFromBundleImage envSaveFails sampleBundle false false false "" "").state.ab.Errors ∧
    sampleBundle.Errors.length <
      (GetDataFromBundleImage envSaveFails sampleBundle false false false
        "" "").state.ab.Errors.length :=
  ⟨(errors_only_appended envSaveFails sampleBundle false false false "" ""
      (fun _ _ _ => List.prefix_rfl) (fun _ _ => List.prefix_rfl)).1,
   (errors_only_appended envSaveFails sampleBundle false false false "" ""
      (fun _ _ _ => List.prefix_rfl) (fun _ _ => List.prefix_rfl)).2.2.2.1
      [.command ["docker", "pull", sampleBundle.OperatorBundleImagePath],
       .command ["mkdir", "./tmp/etcd"]]
      ["docker", "save", "quay.io/example/etcd-bundle", "-o", "./tmp/etcd/etcd.tar"]
      ((GetDataFromBundleImage envSaveFails sampleBundle false false false
        "" "").state.trace.drop 3)
      (by decide) (by decide) (by decide)⟩

end Actions

end Audit
